import Mathlib

/-!
Verification development for the midi-mcp repository.

The TypeScript source is shallowly embedded: JavaScript numbers are modelled
exactly (Nat / Int / Rat), in-place mutation of the session registry is
modelled by explicit state passing, fallible handlers return `Except`,
and external collaborators (the @tonejs/midi codec and header methods,
Math.random, the file system) are passed in as function parameters.
Filesystem paths are modelled as lists of segments, a segment being the
list of characters between two separators of the path string.
-/

set_option autoImplicit false

namespace MidiMcp

/-! ## Path sandboxing (midi-repo.ts, resolveProjectPath) -/

/-- Seg is one path segment: the characters between two `/` separators. -/
abbrev Seg := List Char

/-- dotdot is the `..` path segment. -/
def dotdot : Seg := ['.', '.']

/-- dotSeg is the `.` path segment. -/
def dotSeg : Seg := ['.']

/-- normStep processes one segment of a path being normalized, as
`path.resolve` does for an absolute path: `.` and empty segments are
dropped, `..` pops the last segment (a no-op at the root). -/
def normStep (acc : List Seg) (s : Seg) : List Seg :=
  if s = [] ∨ s = dotSeg then acc
  else if s = dotdot then acc.dropLast
  else acc ++ [s]

/-- normalizeAbs normalizes the segment list of an absolute path, as
Node's `path.resolve` does after joining. -/
def normalizeAbs (segs : List Seg) : List Seg :=
  segs.foldl normStep []

/-- RelPath is the second argument of `path.resolve`: a path string,
split into segments, together with whether it started with `/`. -/
structure RelPath where
  isAbsolute : Bool
  segs : List Seg

/-- resolveAbs models `path.resolve(absBase, rel)` for a normalized
absolute `absBase`: an absolute `rel` ignores the base. -/
def resolveAbs (absBase : List Seg) (rel : RelPath) : List Seg :=
  if rel.isAbsolute then normalizeAbs rel.segs
  else normalizeAbs (absBase ++ rel.segs)

/-- relativeSegs models `path.relative(from, to)` on two normalized
absolute paths: drop the common leading segments, then one `..` for each
remaining segment of `from`, followed by the remaining segments of `to`. -/
def relativeSegs : List Seg → List Seg → List Seg
  | [], t => t
  | _ :: fs, [] => List.replicate (fs.length + 1) dotdot
  | f :: fs, t :: ts =>
    if f = t then relativeSegs fs ts
    else List.replicate (fs.length + 1) dotdot ++ (t :: ts)

/-- joinSegs reassembles a relative path string (as a character list)
from its segments, i.e. `segs.join("/")`. -/
def joinSegs (segs : List Seg) : List Char :=
  List.intercalate ['/'] segs

/-- startsDotdot is the `rel.startsWith("..")` test of the source. -/
def startsDotdot (segs : List Seg) : Bool :=
  dotdot.isPrefixOf (joinSegs segs)

/-- startsSlash is the POSIX `path.isAbsolute(rel)` test of the source. -/
def startsSlash (segs : List Seg) : Bool :=
  ['/'].isPrefixOf (joinSegs segs)

/-- lookupKey finds the value stored for a key in an association list;
it models `Map.prototype.get`. -/
def lookupKey {β : Type} (m : List (String × β)) (k : String) : Option β :=
  (m.find? (fun p => p.1 = k)).map (·.2)

/-- resolveProjectPath models `MidiRepository.resolveProjectPath`:
look up the project root, resolve the relative path against it, and
accept the result only when `path.relative(root, abs)` is empty or
neither starts with `..` nor is absolute. -/
def resolveProjectPath (projects : List (String × List Seg)) (projectId : String)
    (relativePath : RelPath) : Except String (List Seg) :=
  match lookupKey projects projectId with
  | none => .error ("projectId not found: " ++ projectId)
  | some base =>
    let absBase := normalizeAbs base
    let abs := resolveAbs absBase relativePath
    let rel := relativeSegs absBase abs
    if rel = [] ∨ (startsDotdot rel = false ∧ startsSlash rel = false) then
      .ok abs
    else
      .error "Path escapes project root"

/-! ## Data model (the @tonejs/midi document, as the handlers use it) -/

/-- jsRound is JavaScript's `Math.round`: round half toward positive
infinity, i.e. the floor of `x + 1/2`. -/
def jsRound (q : ℚ) : Int := ⌊q + 1 / 2⌋

/-- roundDiv computes `Math.round(a / b)` for natural `a`, `b`
(`b > 0`), staying in the naturals: `(2a + b) / (2b)` by floor division. -/
def roundDiv (a b : Nat) : Nat := (2 * a + b) / (2 * b)

/-- TimeSig is one entry of the time-signature map:
`{ticks, timeSignature: [num, denom]}`. -/
structure TimeSig where
  ticks : Nat
  num : Nat
  denom : Nat
  deriving DecidableEq

/-- Tempo is one entry of the tempo map. -/
structure Tempo where
  ticks : Nat
  bpm : ℚ
  deriving DecidableEq

/-- Note is one note event of a track. -/
structure Note where
  midi : Int
  ticks : Nat
  durationTicks : Nat
  velocity : ℚ
  channel : Option Nat
  deriving DecidableEq

/-- CcEvent is one control-change event. -/
structure CcEvent where
  value : ℚ
  ticks : Nat
  channel : Option Nat
  deriving DecidableEq

/-- PitchBend is one pitch-bend event. -/
structure PitchBend where
  value : ℚ
  ticks : Nat
  channel : Option Nat
  deriving DecidableEq

/-- Track is one track: name, channel, instrument and the three event
collections (control changes are keyed by controller number). -/
structure Track where
  name : Option String
  channel : Option Nat
  instrument : Option Nat
  notes : List Note
  controlChanges : List (Nat × List CcEvent)
  pitchBends : List PitchBend
  deriving DecidableEq

/-- Header is the document header: PPQ plus the tempo and
time-signature maps. -/
structure Header where
  ppq : Nat
  tempos : List Tempo
  timeSignatures : List TimeSig
  deriving DecidableEq

/-- MidiFile is the in-memory MIDI document. -/
structure MidiFile where
  header : Header
  tracks : List Track
  deriving DecidableEq

/-! ## midi-utils.ts -/

/-- TickRange is the optional `{startTicks?, endTicks?}` range object. -/
structure TickRange where
  startTicks : Option Nat
  endTicks : Option Nat
  deriving DecidableEq

/-- inRange models the `inRange` helper: inclusive of `startTicks`,
exclusive of `endTicks`, unbounded where absent. -/
def inRange (ticks : Nat) (range : Option TickRange) : Bool :=
  match range with
  | none => true
  | some r =>
    if (match r.startTicks with | some s => decide (ticks < s) | none => false) then false
    else !(match r.endTicks with | some e => decide (e ≤ ticks) | none => false)

/-- EvType discriminates the three event shapes. -/
inductive EvType where
  | note
  | cc
  | pitchbend
  deriving DecidableEq

/-- EvFilter is the optional type/number/channel filter object. -/
structure EvFilter where
  types : Option (List EvType)
  noteNumbers : Option (List Int)
  ccNumbers : Option (List Nat)
  channels : Option (List Nat)
  deriving DecidableEq

/-- FilterData is the `{midi?, number?, channel?}` record handed to
`matchFilter` by each caller. -/
structure FilterData where
  midi : Option Int
  number : Option Nat
  channel : Option Nat
  deriving DecidableEq

/-- matchFilter models the `matchFilter` helper: an event passes only if
it matches every supplied constraint. -/
def matchFilter (ty : EvType) (data : FilterData) (filter : Option EvFilter) : Bool :=
  match filter with
  | none => true
  | some f =>
    if (match f.types with | some ts => !ts.contains ty | none => false) then false
    else if ty = .note &&
        (match f.noteNumbers, data.midi with
         | some ns, some m => !ns.contains m
         | _, _ => false) then false
    else if ty = .cc &&
        (match f.ccNumbers, data.number with
         | some cs, some n => !cs.contains n
         | _, _ => false) then false
    else if (match f.channels, data.channel with
         | some chs, some c => !chs.contains c
         | _, _ => false) then false
    else true

/-- getNoteChannel models `note.channel ?? track.channel ?? 0`. -/
def getNoteChannel (n : Note) (t : Track) : Nat :=
  n.channel.getD (t.channel.getD 0)

/-- getCcChannel models `cc.channel ?? track.channel ?? 0`. -/
def getCcChannel (c : CcEvent) (t : Track) : Nat :=
  c.channel.getD (t.channel.getD 0)

/-- getPitchBendChannel models `pb.channel ?? track.channel ?? 0`. -/
def getPitchBendChannel (p : PitchBend) (t : Track) : Nat :=
  p.channel.getD (t.channel.getD 0)

/-- digitsToNat reads a decimal digit string, as `Number` does for the
capture group of the grid pattern. -/
def digitsToNat (ds : List Char) : Nat :=
  ds.foldl (fun a c => a * 10 + (c.toNat - '0'.toNat)) 0

/-- gridToTicks models the `gridToTicks` helper: a number is taken as a
tick count; a string must match `1/N` and yields `round(ppq*4/N)`. -/
def gridToTicks (grid : String ⊕ ℚ) (ppq : Nat) : Except String ℚ :=
  match grid with
  | .inr n => .ok n
  | .inl s =>
    match s.data with
    | '1' :: '/' :: ds =>
      if ds ≠ [] ∧ ds.all (·.isDigit) then
        let denom := digitsToNat ds
        if 0 < denom then .ok ((roundDiv (ppq * 4) denom : Nat) : ℚ)
        else .error ("Unsupported grid: " ++ s)
      else .error ("Unsupported grid: " ++ s)
    | _ => .error ("Unsupported grid: " ++ s)

/-- defaultTimeSignatures models the `{ticks:0, 4/4}` fallback map. -/
def defaultTimeSignatures : List TimeSig := [⟨0, 4, 4⟩]

/-- sortSigs models `[...].sort((a, b) => a.ticks - b.ticks)`: a stable
sort on the tick field (insertion sort with `≤` is stable). -/
def sortSigs (l : List TimeSig) : List TimeSig :=
  l.insertionSort (fun a b => a.ticks ≤ b.ticks)

/-- tpbOf is `Math.round(ppq * 4 / denom)`, the ticks per beat of a
signature segment. -/
def tpbOf (ppq denom : Nat) : Nat := roundDiv (ppq * 4) denom

/-- fitsNext holds while the `while (currentTicks + ticksPerBar <= nextTicks)`
condition does, `none` standing for the `Infinity` of the last segment. -/
def fitsNext (next : Option Nat) (v : Nat) : Bool :=
  match next with
  | none => true
  | some n => decide (v ≤ n)

/-- Bbt is a bar/beat/tick triple (bars and beats 1-indexed). -/
structure Bbt where
  bar : Nat
  beat : Nat
  tick : Nat
  deriving DecidableEq

/-- tbInner is the inner `while` of `ticksToBbt` for one signature
segment: advance whole bars until the target tick falls inside the
current bar (`Sum.inl` result) or the segment is exhausted
(`Sum.inr` carries the state over). The fuel argument only bounds the
loop so the model is total: the callers pass fuel that provably covers
every terminating run of the source, so `none` (fuel exhausted) marks
exactly the inputs on which the source loops forever
(a zero bar length with the target not yet reached). -/
def tbInner (tpb tpBar ticks : Nat) (next : Option Nat) :
    Nat → Nat → Nat → Option (Bbt ⊕ (Nat × Nat))
  | 0, _, _ => none
  | fuel + 1, current, bar =>
    if fitsNext next (current + tpBar) then
      if ticks < current + tpBar then
        some (Sum.inl ⟨bar, (ticks - current) / tpb + 1, (ticks - current) % tpb⟩)
      else tbInner tpb tpBar ticks next fuel (current + tpBar) (bar + 1)
    else
      match next with
      | none => some (Sum.inr (current, bar))
      | some n =>
        if ticks < n then
          some (Sum.inl ⟨bar, (ticks - current) / tpb + 1, (ticks - current) % tpb⟩)
        else some (Sum.inr (current, bar))

/-- ticksToBbtGo folds `ticksToBbt`'s outer `for` over the signature
segments. A segment advances at most `ticks` whole bars before the
inner loop returns, so fuel `ticks + 1` covers every terminating run. -/
def ticksToBbtGo (ppq ticks : Nat) : List TimeSig → Nat → Nat → Option Bbt
  | [], _, bar => some ⟨bar, 1, 0⟩
  | ts :: rest, current, bar =>
    let tpb := tpbOf ppq ts.denom
    let tpBar := tpb * ts.num
    let next := (rest.head?).map (·.ticks)
    match tbInner tpb tpBar ticks next (ticks + 1) current bar with
    | none => none
    | some (Sum.inl b) => some b
    | some (Sum.inr (c, br)) => ticksToBbtGo ppq ticks rest c br

/-- ticksToBbt models the `ticksToBbt` conversion; `none` marks the
inputs on which the source would loop forever. -/
def ticksToBbt (m : MidiFile) (ticks : Nat) : Option Bbt :=
  let sigs :=
    if m.header.timeSignatures ≠ [] then sortSigs m.header.timeSignatures
    else defaultTimeSignatures
  ticksToBbtGo m.header.ppq ticks sigs 0 1

/-- btInner is the inner `while` of `bbtToTicks` for one signature
segment: advance whole bars until the requested bar is reached
(`Sum.inl` result) or the segment is exhausted (`Sum.inr`). As with
`tbInner` the fuel passed by the caller covers every terminating run,
so `none` marks the source's non-termination (requested bar already
passed on an unbounded segment, or a zero bar length). -/
def btInner (tpb tpBar : Nat) (next : Option Nat) (tbar tbeat ttick : Nat) :
    Nat → Nat → Nat → Option (Nat ⊕ (Nat × Nat))
  | 0, _, _ => none
  | fuel + 1, current, bar =>
    if fitsNext next (current + tpBar) then
      if bar = tbar then some (Sum.inl (current + (tbeat - 1) * tpb + ttick))
      else btInner tpb tpBar next tbar tbeat ttick fuel (current + tpBar) (bar + 1)
    else some (Sum.inr (current, bar))

/-- btFuel bounds the iterations of one `bbtToTicks` segment: the loop
stops after reaching bar `tbar` (at most `tbar` advances, bars start at
1) or after passing `next` (at most `next + 1` advances, one tick per
bar at least), so this fuel covers every terminating run. -/
def btFuel (tbar : Nat) (next : Option Nat) : Nat :=
  tbar + next.elim 0 (· + 1) + 2

/-- bbtToTicksGo folds `bbtToTicks`'s outer `for` over the signature
segments, including the post-loop `if (bar === bbt.bar)` check. -/
def bbtToTicksGo (ppq : Nat) (b : Bbt) : List TimeSig → Nat → Nat → Option (Nat ⊕ (Nat × Nat))
  | [], current, bar => some (Sum.inr (current, bar))
  | ts :: rest, current, bar =>
    let tpb := tpbOf ppq ts.denom
    let tpBar := tpb * ts.num
    let next := (rest.head?).map (·.ticks)
    match btInner tpb tpBar next b.bar b.beat b.tick (btFuel b.bar next) current bar with
    | none => none
    | some (Sum.inl t) => some (Sum.inl t)
    | some (Sum.inr (c, br)) =>
      if br = b.bar then some (Sum.inl (c + (b.beat - 1) * tpb + b.tick))
      else bbtToTicksGo ppq b rest c br

/-- bbtToTicks models the `bbtToTicks` conversion, including the final
extrapolation past the last signature; `none` marks non-termination. -/
def bbtToTicks (m : MidiFile) (b : Bbt) : Option Nat :=
  let sigs :=
    if m.header.timeSignatures ≠ [] then sortSigs m.header.timeSignatures
    else defaultTimeSignatures
  match bbtToTicksGo m.header.ppq b sigs 0 1 with
  | none => none
  | some (Sum.inl t) => some t
  | some (Sum.inr (c, bar)) =>
    match sigs.getLast? with
    | none => none
    | some last =>
      let tpb := tpbOf m.header.ppq last.denom
      let tpBar := tpb * last.num
      some (c + (b.bar - bar) * tpBar + (b.beat - 1) * tpb + b.tick)

/-- chromaticKeys is the key-name table of `buildScale`. -/
def chromaticKeys : List String :=
  ["C", "C#", "D", "D#", "E", "F"] ++ ["F#", "G", "G#", "A", "A#", "B"]

/-- scaleTable is the named interval-pattern table of `buildScale`. -/
def scaleTable : List (String × List Int) :=
  [("major", [0, 2, 4, 5, 7, 9, 11]),
   ("minor", [0, 2, 3, 5, 7, 8, 10]),
   ("dorian", [0, 2, 3, 5, 7, 9, 10]),
   ("mixolydian", [0, 2, 4, 5, 7, 9, 10])]

/-- toUpperStr is `String.toUpperCase`: uppercase each character
(defined by mapping over the character list so that the kernel can
evaluate it; `String.toUpper` itself recurses on byte positions). -/
def toUpperStr (s : String) : String := ⟨s.data.map Char.toUpper⟩

/-- indexOfStr models `Array.prototype.indexOf` on a string list. -/
def indexOfStr : List String → String → Option Nat
  | [], _ => none
  | k :: ks, s => if k = s then some 0 else (indexOfStr ks s).map (· + 1)

/-- buildScale models the `buildScale` helper: the allowed pitch-class
set of a key root and a named scale, as a list (the source's `Set` only
ever answers membership queries). -/
def buildScale (key scale : String) : Except String (List Int) :=
  match indexOfStr chromaticKeys (toUpperStr key) with
  | none => .error ("Unknown key: " ++ key)
  | some keyIndex =>
    match lookupKey scaleTable scale with
    | none => .error ("Unknown scale: " ++ scale)
    | some intervals => .ok (intervals.map (fun i => (i + (keyIndex : Int)) % 12))

/-- constrainNote models the `constrainNote` helper. JavaScript's `%`
on these non-negative operands agrees with `Int.tmod`; the `+ 1200`
guard of the downward search keeps its operand non-negative exactly as
in the source. -/
def constrainNote (midi : Int) (allowed : List Int) (strategy : String) : Int :=
  if allowed.contains (midi.tmod 12) then midi
  else
    let up :=
      match (List.range' 1 11).find? (fun i => allowed.contains ((midi + i).tmod 12)) with
      | some i => midi + i
      | none => midi
    let down :=
      match (List.range' 1 11).find? (fun i => allowed.contains ((midi - i + 1200).tmod 12)) with
      | some i => midi - i
      | none => midi
    if strategy = "up" then up
    else if strategy = "down" then down
    else if (up - midi).natAbs < (midi - down).natAbs then up else down

/-- clampMidi is the `Math.min(127, Math.max(0, x))` clamp every
pitch-producing transform applies. -/
def clampMidi (x : Int) : Int := min 127 (max 0 x)

/-- constrainStep is the per-note pitch update of `constrainToScale`:
constrain, then clamp into the MIDI range. -/
def constrainStep (allowed : List Int) (strategy : String) (midi : Int) : Int :=
  clampMidi (constrainNote midi allowed strategy)

/-! ## Session repository state and handlers (midi-repo.ts, midi-handlers.ts)

In-place mutation of the `Map` entries is modelled by rebuilding the
store; the external codec (`new Midi(bytes)`, `midi.toArray()`), the
tempo-map seconds conversion and `Math.random` enter as function
parameters; `safeUpdateHeader` calls the external library's
`header.update()`, which is the identity on every field this model
carries, so it does not appear. -/

/-- MidiEntry is one entry of the session store. -/
structure MidiEntry where
  id : String
  projectId : String
  path : Option (List Seg)
  midi : MidiFile
  dirty : Bool
  lastBackupId : Option String
  deriving DecidableEq

/-- BackupEntry is one entry of the backup store; its bytes are an
opaque serialized snapshot. -/
structure BackupEntry where
  id : String
  projectId : String
  path : Option (List Seg)
  bytes : List Nat
  deriving DecidableEq

/-- RepoState is the repository's mutable state: both stores. -/
structure RepoState where
  midiStore : List (String × MidiEntry)
  backupStore : List (String × BackupEntry)
  deriving DecidableEq

/-- storeSet models `Map.prototype.set`: replace the value under an
existing key, else append a new entry. -/
def storeSet {β : Type} (m : List (String × β)) (k : String) (v : β) : List (String × β) :=
  if m.any (fun p => p.1 = k) then m.map (fun p => if p.1 = k then (k, v) else p)
  else m ++ [(k, v)]

/-- storeDelete models `Map.prototype.delete`. -/
def storeDelete {β : Type} (m : List (String × β)) (k : String) : List (String × β) :=
  m.filter (fun p => p.1 ≠ k)

/-- getEntry models `MidiRepository.getEntry`. -/
def getEntry (st : RepoState) (midiId : String) : Except String MidiEntry :=
  match lookupKey st.midiStore midiId with
  | none => .error ("midiId not found: " ++ midiId)
  | some e => .ok e

/-- getTrack models `MidiRepository.getTrack`. -/
def getTrack (m : MidiFile) (trackId : Nat) : Except String Track :=
  match m.tracks[trackId]? with
  | none => .error ("trackId not found: " ++ toString trackId)
  | some t => .ok t

/-- markDirty models `MidiRepository.markDirty` (its
`safeUpdateHeader` call is the identity on the modelled fields). -/
def markDirty (e : MidiEntry) : MidiEntry := { e with dirty := true }

/-- setTrack writes back a track that the source mutated in place. -/
def setTrack (m : MidiFile) (i : Nat) (t : Track) : MidiFile :=
  { m with tracks := m.tracks.set i t }

/-! ## Event querying (toEventList and paging) -/

/-- Ev is one element of the uniform event list `toEventList` builds. -/
inductive Ev where
  | note (midi : Int) (ticks : Nat) (durationTicks : Nat) (velocity : ℚ)
  | cc (number : Nat) (value : ℚ) (ticks : Nat)
  | pitchbend (value : ℚ) (ticks : Nat)
  deriving DecidableEq

/-- Ev.ticks is the tick field the sort key uses. -/
def Ev.ticks : Ev → Nat
  | .note _ t _ _ => t
  | .cc _ _ t => t
  | .pitchbend _ t => t

/-- sortEvents models `events.sort((a, b) => a.ticks - b.ticks)`
(a stable sort, as required of `Array.prototype.sort`). -/
def sortEvents (l : List Ev) : List Ev :=
  l.insertionSort (fun a b => a.ticks ≤ b.ticks)

/-- notePred is the range-and-filter test every note-transform and the
query engine apply to a note. -/
def notePred (t : Track) (range : Option TickRange) (filter : Option EvFilter) (n : Note) : Bool :=
  inRange n.ticks range &&
    matchFilter .note ⟨some n.midi, none, some (getNoteChannel n t)⟩ filter

/-- toEventList models the `toEventList` helper: collect the filtered
notes, control changes and pitch bends of one track and sort by tick.
The control-change entries are traversed in stored key order. -/
def toEventList (m : MidiFile) (trackId : Nat) (range : Option TickRange)
    (filter : Option EvFilter) : Except String (List Ev) :=
  match getTrack m trackId with
  | .error e => .error e
  | .ok track =>
  let noteEvs :=
    (track.notes.filter (notePred track range filter)).map
      (fun n => Ev.note n.midi n.ticks n.durationTicks n.velocity)
  let ccEvs :=
    (track.controlChanges.map (fun e =>
      ((e.2.filter (fun c =>
          inRange c.ticks range &&
            matchFilter .cc ⟨none, some e.1, some (getCcChannel c track)⟩ filter)).map
        (fun c => Ev.cc e.1 c.value c.ticks)))).flatten
  let pbEvs :=
    (track.pitchBends.filter (fun p =>
        inRange p.ticks range &&
          matchFilter .pitchbend ⟨none, none, some (getPitchBendChannel p track)⟩ filter)).map
      (fun p => Ev.pitchbend p.value p.ticks)
  .ok (sortEvents (noteEvs ++ ccEvs ++ pbEvs))

/-- EventsPage is the `{total, nextOffset, events}` payload of
`getEvents`. -/
structure EventsPage where
  total : Nat
  nextOffset : Option Nat
  events : List Ev
  deriving DecidableEq

/-- getEventsPage is the paging tail of the `getEvents` handler:
`start = offset ?? 0`, `pageSize = limit ?? 512`, slice plus `total`
and `nextOffset`. -/
def getEventsPage (events : List Ev) (offset limit : Option Nat) : EventsPage :=
  let start := offset.getD 0
  let pageSize := limit.getD 512
  let stop := start + pageSize
  ⟨events.length,
   if stop < events.length then some stop else none,
   (events.drop start).take pageSize⟩

/-- closeMidi models the `closeMidi` handler: delete the entry (a
missing key is not an error) and reply `closed <id>`. -/
def closeMidi (st : RepoState) (midiId : String) : Except String (RepoState × String) :=
  .ok ({ st with midiStore := storeDelete st.midiStore midiId }, "closed " ++ midiId)

/-- commit models the `commit` handler. The returned list is the
file writes performed, as `(path, bytes)` pairs, `encode` standing for
`midi.toArray()`. -/
def commit (encode : MidiFile → List Nat) (st : RepoState) (midiId : String) :
    Except String (RepoState × List (List Seg × List Nat) × String) :=
  match getEntry st midiId with
  | .error e => .error e
  | .ok entry =>
  match entry.path with
  | none => .error "No original path for this midiId"
  | some p =>
    if entry.dirty = false then .ok (st, [], "noop")
    else
      .ok ({ st with midiStore := storeSet st.midiStore midiId { entry with dirty := false } },
        [(p, encode entry.midi)], "ok")

/-- revert models the `revert` handler, `decode` standing for
`new Midi(bytes)`. -/
def revert (decode : List Nat → MidiFile) (st : RepoState) (midiId : String) :
    Except String RepoState :=
  match getEntry st midiId with
  | .error e => .error e
  | .ok entry =>
  match entry.lastBackupId with
  | none => .error "no backup for this midiId"
  | some backupId =>
    match lookupKey st.backupStore backupId with
    | none => .error ("backupId not found: " ++ backupId)
    | some backup =>
      .ok { st with
        midiStore :=
          storeSet st.midiStore midiId
            { entry with midi := decode backup.bytes, dirty := false } }

/-- TickInput tags which of the three mutually exclusive time encodings
a `toTicks` call supplied. -/
inductive TickInput where
  | bbt (b : Bbt)
  | quarterNotes (q : ℚ)
  | seconds (s : ℚ)
  deriving DecidableEq

/-- requireOne models the `requireOne` helper: keep the supplied items
and fail unless exactly one remains. -/
def requireOne {α : Type} (items : List (String × Option α)) : Except String (String × α) :=
  let provided := items.filterMap (fun p => p.2.map (fun v => (p.1, v)))
  match provided with
  | [v] => .ok v
  | _ => .error ("Provide exactly one of: " ++ String.intercalate ", " (items.map (·.1)))

/-- toTicks models the `toTicks` handler; `secondsToTicks` stands for
the external `header.secondsToTicks`. A successful `.ok none` marks
the one case where the source would not return (divergence of
`bbtToTicks`); every `.error` is a thrown error. -/
def toTicks (secondsToTicks : ℚ → ℚ) (st : RepoState) (midiId : String)
    (bbt : Option Bbt) (quarterNotes : Option ℚ) (seconds : Option ℚ) :
    Except String (Option Int) :=
  match getEntry st midiId with
  | .error e => .error e
  | .ok entry =>
  match requireOne
    [("bbt", bbt.map TickInput.bbt),
     ("quarterNotes", quarterNotes.map TickInput.quarterNotes),
     ("seconds", seconds.map TickInput.seconds)] with
  | .error e => .error e
  | .ok kv =>
  match kv.2 with
  | .bbt b =>
    match bbtToTicks entry.midi b with
    | some t => .ok (some (t : Int))
    | none => .ok none
  | .quarterNotes q => .ok (some (jsRound (q * (entry.midi.header.ppq : ℚ))))
  | .seconds s => .ok (some (jsRound (secondsToTicks s)))

/-- getEvents models the `getEvents` handler body (after schema
validation). -/
def getEvents (st : RepoState) (midiId : String) (trackId : Nat)
    (range : Option TickRange) (filter : Option EvFilter)
    (offset limit : Option Nat) : Except String EventsPage :=
  match getEntry st midiId with
  | .error e => .error e
  | .ok entry =>
  match toEventList entry.midi trackId range filter with
  | .error e => .error e
  | .ok events => .ok (getEventsPage events offset limit)

/-- offsetInvalid is the zod check `offset: int >= 0` failing. -/
def offsetInvalid (offset : Option Int) : Bool :=
  match offset with
  | some o => decide (o < 0)
  | none => false

/-- limitInvalid is the zod check `limit: int in [1, 5000]` failing. -/
def limitInvalid (limit : Option Int) : Bool :=
  match limit with
  | some l => decide (l < 1 ∨ 5000 < l)
  | none => false

/-- get_events models the registered `get_events` tool: the zod schema
rejects a negative offset and a limit outside `[1, 5000]` before the
handler runs (numbers must also be integers, which the `Int` carrier
builds in). -/
def get_events (st : RepoState) (midiId : String) (trackId : Nat)
    (range : Option TickRange) (filter : Option EvFilter)
    (offset limit : Option Int) : Except String EventsPage :=
  if offsetInvalid offset then
    .error "validation: offset must be >= 0"
  else if limitInvalid limit then
    .error "validation: limit must be between 1 and 5000"
  else
    getEvents st midiId trackId range filter (offset.map Int.toNat) (limit.map Int.toNat)

/-! ## Transform handlers (midi-handlers.ts) -/

/-- applyTrackOp is the shared shape of every transform handler:
get the entry and the track, rewrite the track's events (any error is
thrown before the loop mutates anything), then `markDirty` and store the
mutated entry back. -/
def applyTrackOp (st : RepoState) (midiId : String) (trackId : Nat)
    (f : MidiFile → Track → Except String Track) : Except String RepoState :=
  match getEntry st midiId with
  | .error e => .error e
  | .ok entry =>
  match getTrack entry.midi trackId with
  | .error e => .error e
  | .ok track =>
  match f entry.midi track with
  | .error e => .error e
  | .ok track' =>
    let entry' := markDirty { entry with midi := setTrack entry.midi trackId track' }
    .ok { st with midiStore := storeSet st.midiStore midiId entry' }

/-- quantizeTick is the per-note tick update of `quantize`. -/
def quantizeTick (gridTicks : ℚ) (str sw : ℚ) (ticks : Nat) : Nat :=
  let gridIndex : Int := jsRound ((ticks : ℚ) / gridTicks)
  let target : ℚ := (gridIndex : ℚ) * gridTicks
  let target : ℚ :=
    if sw ≠ 0 ∧ gridIndex.tmod 2 = 1 then target + (jsRound (gridTicks / 2 * sw) : ℚ)
    else target
  (max 0 (jsRound ((ticks : ℚ) + (target - (ticks : ℚ)) * str))).toNat

/-- quantize models the `quantize` handler. -/
def quantize (st : RepoState) (midiId : String) (trackId : Nat)
    (range : Option TickRange) (filter : Option EvFilter)
    (grid : String ⊕ ℚ) (strength swing : Option ℚ) : Except String RepoState :=
  applyTrackOp st midiId trackId (fun m track =>
    match gridToTicks grid m.header.ppq with
    | .error e => .error e
    | .ok gridTicks =>
    let str := strength.getD 1
    let sw := swing.getD 0
    .ok { track with
      notes := track.notes.map (fun note =>
        if notePred track range filter note then
          { note with ticks := quantizeTick gridTicks str sw note.ticks }
        else note) })

/-- humanizeNotes rewrites the notes of `humanize` in order, threading
the index of the next `Math.random()` draw (`rand k` is the value of
the `k`-th call, a number in `[0, 1)`). -/
def humanizeNotes (t : Track) (range : Option TickRange) (filter : Option EvFilter)
    (timingSeconds : ℚ) (velocity : Option ℚ)
    (rand : Nat → ℚ) (ticksToSec : Nat → ℚ) (secToTicks : ℚ → ℚ) :
    List Note → Nat → List Note
  | [], _ => []
  | n :: rest, k =>
    if notePred t range filter n then
      let (n1, k1) :=
        if timingSeconds ≠ 0 then
          let deltaSeconds := (rand k * 2 - 1) * timingSeconds
          let targetTicks := secToTicks (ticksToSec n.ticks + deltaSeconds)
          ({ n with ticks := (max 0 (jsRound targetTicks)).toNat }, k + 1)
        else (n, k)
      let (n2, k2) :=
        match velocity with
        | some v => ({ n1 with velocity := min 1 (max 0 (n1.velocity + (rand k1 * 2 - 1) * v)) }, k1 + 1)
        | none => (n1, k1)
      n2 :: humanizeNotes t range filter timingSeconds velocity rand ticksToSec secToTicks rest k2
    else n :: humanizeNotes t range filter timingSeconds velocity rand ticksToSec secToTicks rest k

/-- humanize models the `humanize` handler; `rand`, `ticksToSec` and
`secToTicks` stand for `Math.random` and the external tempo-map
conversions of `header`. -/
def humanize (rand : Nat → ℚ) (ticksToSec : Nat → ℚ) (secToTicks : ℚ → ℚ)
    (st : RepoState) (midiId : String) (trackId : Nat)
    (range : Option TickRange) (filter : Option EvFilter)
    (timingMs velocity : Option ℚ) : Except String RepoState :=
  applyTrackOp st midiId trackId (fun _ track =>
    let timingSeconds := match timingMs with
      | some ms => if ms = 0 then 0 else ms / 1000
      | none => 0
    .ok { track with
      notes := humanizeNotes track range filter timingSeconds velocity
        rand ticksToSec secToTicks track.notes 0 })

/-- transpose models the `transpose` handler. -/
def transpose (st : RepoState) (midiId : String) (trackId : Nat)
    (range : Option TickRange) (filter : Option EvFilter)
    (semitones : Int) : Except String RepoState :=
  applyTrackOp st midiId trackId (fun _ track =>
    .ok { track with
      notes := track.notes.map (fun note =>
        if notePred track range filter note then
          { note with midi := clampMidi (note.midi + semitones) }
        else note) })

/-- constrainTrackNotes is the note rewrite of `constrainToScale`:
each matching note's pitch is constrained and clamped. -/
def constrainTrackNotes (track : Track) (range : Option TickRange)
    (filter : Option EvFilter) (allowed : List Int) (strategy : String) : List Note :=
  track.notes.map (fun note =>
    if notePred track range filter note then
      { note with midi := constrainStep allowed strategy note.midi }
    else note)

/-- constrainToScale models the `constrainToScale` handler. -/
def constrainToScale (st : RepoState) (midiId : String) (trackId : Nat)
    (range : Option TickRange) (filter : Option EvFilter)
    (key scale strategy : String) : Except String RepoState :=
  applyTrackOp st midiId trackId (fun _ track =>
    match buildScale key scale with
    | .error e => .error e
    | .ok allowed =>
    .ok { track with notes := constrainTrackNotes track range filter allowed strategy })

/-- lookupIdx finds the update recorded for a note index. -/
def lookupIdx (m : List (Nat × Nat)) (k : Nat) : Option Nat :=
  (m.find? (fun p => p.1 = k)).map (·.2)

/-- pushGroup appends a note to its `(pitch, channel)` group, creating
the group on first sight; this models insertion into the
`Map<string, any[]>` keyed by `` `${note.midi}:${channel}` `` (the key
string determines the pair, so the pair is the key). -/
def pushGroup (gs : List ((Int × Nat) × List (Nat × Note))) (k : Int × Nat)
    (p : Nat × Note) : List ((Int × Nat) × List (Nat × Note)) :=
  if gs.any (fun g => g.1 = k) then
    gs.map (fun g => if g.1 = k then (g.1, g.2 ++ [p]) else g)
  else gs ++ [(k, [p])]

/-- overlapGroups groups the matching notes of a track by
`(pitch, resolved channel)` in first-appearance order, keeping each
note's position in `track.notes` (the source works on object
references; positions model reference identity). -/
def overlapGroups (t : Track) (range : Option TickRange) (filter : Option EvFilter) :
    List ((Int × Nat) × List (Nat × Note)) :=
  ((t.notes.enum).filter (fun p => notePred t range filter p.2)).foldl
    (fun gs p => pushGroup gs (p.2.midi, getNoteChannel p.2 t) p) []

/-- sortGroup models `list.sort((a, b) => a.ticks - b.ticks)` on one
group (stable). -/
def sortGroup (l : List (Nat × Note)) : List (Nat × Note) :=
  l.insertionSort (fun a b => a.2.ticks ≤ b.2.ticks)

/-- trimPassIdx is the single left-to-right trim pass of `fixOverlaps`
over one sorted group: an earlier note whose end passes the next note's
start is shortened to end there, with a minimum duration of 1 tick. -/
def trimPassIdx : List (Nat × Note) → List (Nat × Note)
  | (i, a) :: (j, b) :: rest =>
    let a' :=
      if b.ticks < a.ticks + a.durationTicks then
        { a with durationTicks := max 1 (b.ticks - a.ticks) }
      else a
    (i, a') :: trimPassIdx ((j, b) :: rest)
  | l => l

/-- removeIdxs is the single left-to-right remove pass of `fixOverlaps`
over one sorted group: the later note of each overlapping adjacent pair
is marked for removal (the source keeps comparing against the removed
note, which stays in the group list, exactly as here). -/
def removeIdxs : List (Nat × Note) → List Nat
  | (_, a) :: (j, b) :: rest =>
    (if b.ticks < a.ticks + a.durationTicks then [j] else []) ++ removeIdxs ((j, b) :: rest)
  | _ => []

/-- fixOverlapsNotes is the note-collection rewrite of `fixOverlaps`:
trim mode installs each group's final durations, remove mode filters
out the marked notes. -/
def fixOverlapsNotes (t : Track) (range : Option TickRange) (filter : Option EvFilter)
    (mode : String) : List Note :=
  let groups := overlapGroups t range filter
  if mode = "trim" then
    let updates :=
      (groups.map (fun g =>
        (trimPassIdx (sortGroup g.2)).map (fun p => (p.1, p.2.durationTicks)))).flatten
    t.notes.enum.map (fun p =>
      match lookupIdx updates p.1 with
      | some d => { p.2 with durationTicks := d }
      | none => p.2)
  else
    let removed := (groups.map (fun g => removeIdxs (sortGroup g.2))).flatten
    (t.notes.enum.filter (fun p => !removed.contains p.1)).map (·.2)

/-- fixOverlaps models the `fixOverlaps` handler. -/
def fixOverlaps (st : RepoState) (midiId : String) (trackId : Nat)
    (range : Option TickRange) (filter : Option EvFilter)
    (mode : String) : Except String RepoState :=
  applyTrackOp st midiId trackId (fun _ track =>
    .ok { track with notes := fixOverlapsNotes track range filter mode })

/-- legatoUpdates walks the matching tick-sorted notes and gives each
note but the last the duration reaching the next note's start minus the
gap (minimum 1 tick), chaining across pitches. -/
def legatoUpdates (gap : Nat) : List (Nat × Note) → List (Nat × Nat)
  | (i, a) :: (j, b) :: rest =>
    (i, max 1 (b.ticks - a.ticks - gap)) :: legatoUpdates gap ((j, b) :: rest)
  | _ => []

/-- legato models the `legato` handler. -/
def legato (st : RepoState) (midiId : String) (trackId : Nat)
    (range : Option TickRange) (filter : Option EvFilter)
    (gapTicks : Option Nat) : Except String RepoState :=
  applyTrackOp st midiId trackId (fun _ track =>
    let gap := gapTicks.getD 0
    let ms := sortGroup ((track.notes.enum).filter (fun p => notePred track range filter p.2))
    let updates := legatoUpdates gap ms
    .ok { track with
      notes := track.notes.enum.map (fun p =>
        match lookupIdx updates p.1 with
        | some d => { p.2 with durationTicks := d }
        | none => p.2) })

/-- trimNotes models the `trimNotes` handler: matching notes shorter
than the threshold are removed, non-matching notes always kept. -/
def trimNotes (st : RepoState) (midiId : String) (trackId : Nat)
    (range : Option TickRange) (filter : Option EvFilter)
    (minDuration : Option Nat) : Except String RepoState :=
  applyTrackOp st midiId trackId (fun _ track =>
    let minDur := minDuration.getD 1
    .ok { track with
      notes := track.notes.filter (fun note =>
        if !notePred track range filter note then true
        else decide (minDur ≤ note.durationTicks)) })

/-! ## Store lemmas -/

theorem find?_map_replace {β : Type} (m : List (String × β)) (k : String) (v : β) :
    (m.map (fun p => if p.1 = k then (k, v) else p)).find? (fun p => p.1 = k) =
      if m.any (fun p => p.1 = k) then some (k, v) else none := by
  induction m with
  | nil => rfl
  | cons p rest ih =>
    by_cases h : p.1 = k
    · simp [h, List.find?]
    · have hd : decide (p.1 = k) = false := by simpa using h
      rw [List.map_cons, List.any_cons, if_neg h,
        List.find?_cons_of_neg _ (by simpa using h), ih, hd, Bool.false_or]

theorem find?_append_single {β : Type} (m : List (String × β)) (k : String) (v : β)
    (h : m.any (fun p => p.1 = k) = false) :
    (m ++ [(k, v)]).find? (fun p => p.1 = k) = some (k, v) := by
  induction m with
  | nil => simp [List.find?]
  | cons p rest ih =>
    simp only [List.any_cons, Bool.or_eq_false_iff] at h
    have hp : ¬ p.1 = k := by simpa using h.1
    simp [List.find?, hp, ih h.2]

/-- lookupKey_storeSet: after `storeSet m k v`, looking up `k` yields `v`. -/
theorem lookupKey_storeSet {β : Type} (m : List (String × β)) (k : String) (v : β) :
    lookupKey (storeSet m k v) k = some v := by
  unfold storeSet lookupKey
  by_cases h : m.any (fun p => p.1 = k) = true
  · rw [if_pos h, find?_map_replace, if_pos h]
    rfl
  · have h' : m.any (fun p => p.1 = k) = false := by
      cases hb : m.any (fun p => p.1 = k) with
      | false => rfl
      | true => exact absurd hb h
    rw [if_neg h, find?_append_single m k v h']
    rfl

/-- lookupKey_storeDelete: after `storeDelete m k`, `k` is absent. -/
theorem lookupKey_storeDelete {β : Type} (m : List (String × β)) (k : String) :
    lookupKey (storeDelete m k) k = none := by
  unfold storeDelete lookupKey
  have hfind : (m.filter (fun p => p.1 ≠ k)).find? (fun p => p.1 = k) = none := by
    rw [List.find?_eq_none]
    intro p hp
    have h2 := (List.mem_filter.mp hp).2
    simp at h2 ⊢
    exact h2
  rw [hfind]
  rfl

/-! ## Claim C9: closeMidi -/

/-- C9: `closeMidi` succeeds for every `midiId` — including ids that are
not in the session store — and afterwards the store has no entry for
that id (the backup store is untouched). -/
theorem closeMidi_total_and_removes (st : RepoState) (midiId : String) :
    ∃ st' msg, closeMidi st midiId = .ok (st', msg) ∧
      lookupKey st'.midiStore midiId = none ∧
      st'.backupStore = st.backupStore := by
  exact ⟨_, _, rfl, lookupKey_storeDelete st.midiStore midiId, rfl⟩

/-! ## Claim C10: commit on a clean session -/

/-- C10: `commit` on a session that has an original path and a clear
dirty flag returns the `noop` success, performs no write, and leaves
the whole repository state (hence the session's sequence, path,
projectId, lastBackupId and dirty flag) unchanged. -/
theorem commit_clean_noop (encode : MidiFile → List Nat) (st : RepoState)
    (midiId : String) (entry : MidiEntry) (p : List Seg)
    (hlook : lookupKey st.midiStore midiId = some entry)
    (hpath : entry.path = some p)
    (hdirty : entry.dirty = false) :
    commit encode st midiId = .ok (st, [], "noop") := by
  simp [commit, getEntry, hlook, hpath, hdirty]

/-- Witness for C10 at a concrete clean session. -/
theorem commit_clean_noop_witness :
    commit (fun _ => []) ⟨[("m", ⟨"m", "default", some [['a']],
        ⟨⟨480, [], []⟩, []⟩, false, none⟩)], []⟩ "m" =
      .ok (⟨[("m", ⟨"m", "default", some [['a']],
        ⟨⟨480, [], []⟩, []⟩, false, none⟩)], []⟩, [], "noop") :=
  commit_clean_noop (fun _ => [])
    ⟨[("m", ⟨"m", "default", some [['a']], ⟨⟨480, [], []⟩, []⟩, false, none⟩)], []⟩
    "m" ⟨"m", "default", some [['a']], ⟨⟨480, [], []⟩, []⟩, false, none⟩ [['a']]
    rfl rfl rfl

/-! ## Claim C6: revert -/

/-- C6: `revert` fails with the state error when the session has never
been backed up (no state is produced, so the session is untouched);
when the last backup exists, it succeeds and the session now holds a
fresh decode of that backup's bytes with the dirty flag cleared, every
other field and the backup store unchanged. -/
theorem revert_spec (decode : List Nat → MidiFile) (st : RepoState)
    (midiId : String) (entry : MidiEntry)
    (hlook : lookupKey st.midiStore midiId = some entry) :
    (entry.lastBackupId = none →
      revert decode st midiId = .error "no backup for this midiId") ∧
    (∀ bid backup, entry.lastBackupId = some bid →
      lookupKey st.backupStore bid = some backup →
      ∃ st', revert decode st midiId = .ok st' ∧
        lookupKey st'.midiStore midiId =
          some { entry with midi := decode backup.bytes, dirty := false } ∧
        st'.backupStore = st.backupStore) := by
  constructor
  · intro hnone
    simp [revert, getEntry, hlook, hnone]
  · intro bid backup hbid hbackup
    refine Exists.intro
      { st with midiStore := (storeSet st.midiStore midiId
          ({ entry with midi := decode backup.bytes, dirty := false })) }
      ⟨?_, ?_, rfl⟩
    · simp [revert, getEntry, hlook, hbid, hbackup]
    · exact lookupKey_storeSet st.midiStore midiId _

/-- Witness for C6: both branches at concrete states. -/
theorem revert_spec_witness :
    (revert (fun _ => ⟨⟨96, [], []⟩, []⟩)
      ⟨[("m", ⟨"m", "default", none, ⟨⟨480, [], []⟩, []⟩, true, none⟩)], []⟩ "m" =
        .error "no backup for this midiId") ∧
    (∃ st', revert (fun _ => ⟨⟨96, [], []⟩, []⟩)
      ⟨[("n", ⟨"n", "default", none, ⟨⟨480, [], []⟩, []⟩, true, some "b"⟩)],
       [("b", ⟨"b", "default", none, [1, 2]⟩)]⟩ "n" = .ok st' ∧
      lookupKey st'.midiStore "n" =
        some { id := "n", projectId := "default", path := none,
               midi := ⟨⟨96, [], []⟩, []⟩, dirty := false, lastBackupId := some "b" } ∧
      st'.backupStore = [("b", ⟨"b", "default", none, [1, 2]⟩)]) := by
  constructor
  · exact (revert_spec (fun _ => ⟨⟨96, [], []⟩, []⟩)
      ⟨[("m", ⟨"m", "default", none, ⟨⟨480, [], []⟩, []⟩, true, none⟩)], []⟩ "m"
      ⟨"m", "default", none, ⟨⟨480, [], []⟩, []⟩, true, none⟩ rfl).1 rfl
  · exact (revert_spec (fun _ => ⟨⟨96, [], []⟩, []⟩)
      ⟨[("n", ⟨"n", "default", none, ⟨⟨480, [], []⟩, []⟩, true, some "b"⟩)],
       [("b", ⟨"b", "default", none, [1, 2]⟩)]⟩ "n"
      ⟨"n", "default", none, ⟨⟨480, [], []⟩, []⟩, true, some "b"⟩ rfl).2
      "b" ⟨"b", "default", none, [1, 2]⟩ rfl rfl

/-! ## Claim C7: toTicks requires exactly one time encoding -/

/-- C7: on an open session, `toTicks` fails with the usage error
whenever the number of supplied alternatives among
{bbt, quarterNotes, seconds} differs from one (converting nothing,
since the handler is pure up to that point), and any success implies
exactly one was supplied. (An unknown `midiId` raises the not-found
error before this check.) -/
theorem toTicks_exactly_one (s2t : ℚ → ℚ) (st : RepoState) (midiId : String)
    (entry : MidiEntry) (bbt : Option Bbt) (qn sec : Option ℚ)
    (hlook : lookupKey st.midiStore midiId = some entry) :
    (bbt.isSome.toNat + qn.isSome.toNat + sec.isSome.toNat ≠ 1 →
      toTicks s2t st midiId bbt qn sec =
        .error "Provide exactly one of: bbt, quarterNotes, seconds") ∧
    (∀ out, toTicks s2t st midiId bbt qn sec = .ok out →
      bbt.isSome.toNat + qn.isSome.toNat + sec.isSome.toNat = 1) := by
  have hget : getEntry st midiId = .ok entry := by
    unfold getEntry
    rw [hlook]
  constructor
  · intro hcount
    unfold toTicks
    rw [hget]
    rcases bbt with _ | b <;> rcases qn with _ | q <;> rcases sec with _ | s <;>
      first
        | rfl
        | exact absurd rfl hcount
  · intro out hout
    rcases bbt with _ | b <;> rcases qn with _ | q <;> rcases sec with _ | s <;>
      first
        | rfl
        | (unfold toTicks at hout
           rw [hget] at hout
           exact Except.noConfusion hout)

/-- Witness for C7: zero alternatives and two alternatives both hit the
usage error; a bbt-only call succeeds. -/
theorem toTicks_exactly_one_witness :
    (toTicks id ⟨[("m", ⟨"m", "default", none, ⟨⟨480, [], [⟨0, 4, 4⟩]⟩, []⟩, false, none⟩)], []⟩
        "m" none none none =
      .error "Provide exactly one of: bbt, quarterNotes, seconds") ∧
    (toTicks id ⟨[("m", ⟨"m", "default", none, ⟨⟨480, [], [⟨0, 4, 4⟩]⟩, []⟩, false, none⟩)], []⟩
        "m" (some ⟨1, 1, 0⟩) (some 2) none =
      .error "Provide exactly one of: bbt, quarterNotes, seconds") := by
  constructor
  · exact (toTicks_exactly_one id
      ⟨[("m", ⟨"m", "default", none, ⟨⟨480, [], [⟨0, 4, 4⟩]⟩, []⟩, false, none⟩)], []⟩ "m"
      ⟨"m", "default", none, ⟨⟨480, [], [⟨0, 4, 4⟩]⟩, []⟩, false, none⟩
      none none none rfl).1 (by decide)
  · exact (toTicks_exactly_one id
      ⟨[("m", ⟨"m", "default", none, ⟨⟨480, [], [⟨0, 4, 4⟩]⟩, []⟩, false, none⟩)], []⟩ "m"
      ⟨"m", "default", none, ⟨⟨480, [], [⟨0, 4, 4⟩]⟩, []⟩, false, none⟩
      (some ⟨1, 1, 0⟩) (some 2) none rfl).1 (by decide)

/-! ## Claim C5: getEvents paging -/

/-- C5: for the event list the range-and-filter pass produced, the
`get_events` tool returns exactly the slice from `offset` (default 0)
to `offset + limit` (default 512) exclusive, `total` is the size before
paging, and `nextOffset` is `offset + limit` exactly when that is still
less than `total` (else none); a limit beyond the hard cap 5000 is
rejected by the schema. -/
theorem get_events_paging (st : RepoState) (midiId : String) (trackId : Nat)
    (range : Option TickRange) (filter : Option EvFilter)
    (offset limit : Option Int) (entry : MidiEntry) (events : List Ev)
    (hlook : lookupKey st.midiStore midiId = some entry)
    (hevents : toEventList entry.midi trackId range filter = .ok events)
    (ho : ∀ o, offset = some o → 0 ≤ o) :
    (∀ l, limit = some l → 5000 < l →
      get_events st midiId trackId range filter offset limit =
        .error "validation: limit must be between 1 and 5000") ∧
    (∀ (_hl : ∀ l, limit = some l → 1 ≤ l ∧ l ≤ 5000),
      ∃ page, get_events st midiId trackId range filter offset limit = .ok page ∧
        page.total = events.length ∧
        page.events.length =
          min ((limit.map Int.toNat).getD 512)
            (events.length - (offset.map Int.toNat).getD 0) ∧
        (∀ i, i < page.events.length →
          page.events[i]? = events[(offset.map Int.toNat).getD 0 + i]?) ∧
        page.nextOffset =
          (if (offset.map Int.toNat).getD 0 + (limit.map Int.toNat).getD 512 < events.length
           then some ((offset.map Int.toNat).getD 0 + (limit.map Int.toNat).getD 512)
           else none)) := by
  have hvo : offsetInvalid offset = false := by
    rcases offset with _ | o
    · rfl
    · have := ho o rfl
      simp only [offsetInvalid, decide_eq_false_iff_not]
      omega
  constructor
  · intro l hl hcap
    subst hl
    have hvl : limitInvalid (some l) = true := by
      simp only [limitInvalid, decide_eq_true_eq]
      right
      exact hcap
    unfold get_events
    rw [hvo, hvl]
    rfl
  · intro hl
    have hvl : limitInvalid limit = false := by
      rcases limit with _ | l
      · rfl
      · have h2 := hl l rfl
        simp only [limitInvalid, decide_eq_false_iff_not]
        omega
    refine ⟨getEventsPage events (offset.map Int.toNat) (limit.map Int.toNat),
      ?_, rfl, ?_, ?_, rfl⟩
    · unfold get_events
      rw [hvo, hvl]
      simp only [Bool.false_eq_true, if_false, getEvents, getEntry, hlook, hevents]
    · simp [getEventsPage]
    · intro i hi
      simp only [getEventsPage, List.length_take, List.length_drop] at hi
      simp only [getEventsPage]
      rw [List.getElem?_take_of_lt (by omega), List.getElem?_drop]

/-- evFixtureTrack is a small three-note track used by witnesses. -/
def evFixtureTrack : Track :=
  ⟨none, none, none,
   [⟨60, 0, 10, 1, none⟩, ⟨61, 10, 10, 1, none⟩, ⟨62, 20, 10, 1, none⟩], [], []⟩

/-- evFixtureEntry is a session entry holding `evFixtureTrack`. -/
def evFixtureEntry : MidiEntry :=
  ⟨"m", "default", none, ⟨⟨480, [], [⟨0, 4, 4⟩]⟩, [evFixtureTrack]⟩, false, none⟩

/-- evFixtureState is a repository state holding `evFixtureEntry`. -/
def evFixtureState : RepoState := ⟨[("m", evFixtureEntry)], []⟩

/-- evFixtureEvents is the event list of `evFixtureTrack`. -/
def evFixtureEvents : List Ev :=
  [Ev.note 60 0 10 1, Ev.note 61 10 10 1, Ev.note 62 20 10 1]

/-- Witness for C5: a three-event list paged with offset 1, limit 1,
and the 5000 cap rejecting limit 6000. -/
theorem get_events_paging_witness :
    (get_events evFixtureState "m" 0 none none (some 1) (some 6000) =
      .error "validation: limit must be between 1 and 5000") ∧
    (∃ page, get_events evFixtureState "m" 0 none none (some 1) (some 1) = .ok page ∧
      page.total = evFixtureEvents.length ∧
      page.events.length = min 1 (evFixtureEvents.length - 1) ∧
      (∀ i, i < page.events.length → page.events[i]? = evFixtureEvents[1 + i]?) ∧
      page.nextOffset = (if 1 + 1 < evFixtureEvents.length then some (1 + 1) else none)) := by
  have hlook : lookupKey evFixtureState.midiStore "m" = some evFixtureEntry := rfl
  have hev : toEventList evFixtureEntry.midi 0 none none = .ok evFixtureEvents := rfl
  constructor
  · exact (get_events_paging evFixtureState "m" 0 none none (some 1) (some 6000)
      evFixtureEntry evFixtureEvents hlook hev
      (by intro o h; cases h; decide)).1 6000 rfl (by decide)
  · exact (get_events_paging evFixtureState "m" 0 none none (some 1) (some 1)
      evFixtureEntry evFixtureEvents hlook hev
      (by intro o h; cases h; decide)).2
      (by intro l h; cases h; exact ⟨by decide, by decide⟩)

/-! ## Claim C8: every transform marks the session dirty -/

theorem applyTrackOp_dirty (st : RepoState) (midiId : String) (trackId : Nat)
    (f : MidiFile → Track → Except String Track) (st' : RepoState)
    (h : applyTrackOp st midiId trackId f = .ok st') :
    ∃ e, lookupKey st'.midiStore midiId = some e ∧ e.dirty = true := by
  unfold applyTrackOp at h
  split at h
  · exact Except.noConfusion h
  · split at h
    · exact Except.noConfusion h
    · split at h
      · exact Except.noConfusion h
      · cases h
        exact ⟨_, lookupKey_storeSet st.midiStore midiId _, rfl⟩

/-- C8: each of the seven transform handlers (quantize, humanize,
transpose, constrainToScale, fixOverlaps, legato, trimNotes), whenever
it completes successfully, leaves the owning session with its dirty
flag set — for every argument combination, hence also when the
range-and-filter predicate matches no event at all. -/
theorem transforms_mark_dirty :
    (∀ st midiId trackId range filter grid strength swing st',
      quantize st midiId trackId range filter grid strength swing = .ok st' →
      ∃ e, lookupKey st'.midiStore midiId = some e ∧ e.dirty = true) ∧
    (∀ rand t2s s2t st midiId trackId range filter timingMs velocity st',
      humanize rand t2s s2t st midiId trackId range filter timingMs velocity = .ok st' →
      ∃ e, lookupKey st'.midiStore midiId = some e ∧ e.dirty = true) ∧
    (∀ st midiId trackId range filter semitones st',
      transpose st midiId trackId range filter semitones = .ok st' →
      ∃ e, lookupKey st'.midiStore midiId = some e ∧ e.dirty = true) ∧
    (∀ st midiId trackId range filter key scale strategy st',
      constrainToScale st midiId trackId range filter key scale strategy = .ok st' →
      ∃ e, lookupKey st'.midiStore midiId = some e ∧ e.dirty = true) ∧
    (∀ st midiId trackId range filter mode st',
      fixOverlaps st midiId trackId range filter mode = .ok st' →
      ∃ e, lookupKey st'.midiStore midiId = some e ∧ e.dirty = true) ∧
    (∀ st midiId trackId range filter gapTicks st',
      legato st midiId trackId range filter gapTicks = .ok st' →
      ∃ e, lookupKey st'.midiStore midiId = some e ∧ e.dirty = true) ∧
    (∀ st midiId trackId range filter minDuration st',
      trimNotes st midiId trackId range filter minDuration = .ok st' →
      ∃ e, lookupKey st'.midiStore midiId = some e ∧ e.dirty = true) := by
  refine ⟨?_, ?_, ?_, ?_, ?_, ?_, ?_⟩ <;>
    intros <;>
    first
      | (rename_i h; exact applyTrackOp_dirty _ _ _ _ _ h)

/-- dirtyFixtureEntry is a clean session entry with one empty track. -/
def dirtyFixtureEntry : MidiEntry :=
  ⟨"m", "default", none, ⟨⟨480, [], [⟨0, 4, 4⟩]⟩, [⟨none, none, none, [], [], []⟩]⟩,
   false, none⟩

/-- dirtyFixtureState is a repository state holding `dirtyFixtureEntry`. -/
def dirtyFixtureState : RepoState := ⟨[("m", dirtyFixtureEntry)], []⟩

/-- dirtyFixtureAfter is the state each handler leaves behind on the
fixture (no note matches, so only the dirty flag changes). -/
def dirtyFixtureAfter : RepoState :=
  ⟨[("m", ⟨"m", "default", none, ⟨⟨480, [], [⟨0, 4, 4⟩]⟩, [⟨none, none, none, [], [], []⟩]⟩,
     true, none⟩)], []⟩

/-- Witness for C8: each handler run on a clean session with a track
that matches zero events still flips the dirty flag. -/
theorem transforms_mark_dirty_witness :
    (∃ st', quantize dirtyFixtureState "m" 0 none none (.inr 480) none none = .ok st' ∧
      ∃ e, lookupKey st'.midiStore "m" = some e ∧ e.dirty = true) ∧
    (∃ st', humanize (fun _ => 0) (fun _ => 0) (fun _ => 0)
        dirtyFixtureState "m" 0 none none none none = .ok st' ∧
      ∃ e, lookupKey st'.midiStore "m" = some e ∧ e.dirty = true) ∧
    (∃ st', transpose dirtyFixtureState "m" 0 none none 2 = .ok st' ∧
      ∃ e, lookupKey st'.midiStore "m" = some e ∧ e.dirty = true) ∧
    (∃ st', constrainToScale dirtyFixtureState "m" 0 none none "C" "major" "nearest" = .ok st' ∧
      ∃ e, lookupKey st'.midiStore "m" = some e ∧ e.dirty = true) ∧
    (∃ st', fixOverlaps dirtyFixtureState "m" 0 none none "trim" = .ok st' ∧
      ∃ e, lookupKey st'.midiStore "m" = some e ∧ e.dirty = true) ∧
    (∃ st', legato dirtyFixtureState "m" 0 none none none = .ok st' ∧
      ∃ e, lookupKey st'.midiStore "m" = some e ∧ e.dirty = true) ∧
    (∃ st', trimNotes dirtyFixtureState "m" 0 none none none = .ok st' ∧
      ∃ e, lookupKey st'.midiStore "m" = some e ∧ e.dirty = true) := by
  have h1 : quantize dirtyFixtureState "m" 0 none none (.inr 480) none none =
      .ok dirtyFixtureAfter := rfl
  have h2 : humanize (fun _ => 0) (fun _ => 0) (fun _ => 0)
      dirtyFixtureState "m" 0 none none none none = .ok dirtyFixtureAfter := rfl
  have h3 : transpose dirtyFixtureState "m" 0 none none 2 = .ok dirtyFixtureAfter := rfl
  have h4 : constrainToScale dirtyFixtureState "m" 0 none none "C" "major" "nearest" =
      .ok dirtyFixtureAfter := rfl
  have h5 : fixOverlaps dirtyFixtureState "m" 0 none none "trim" = .ok dirtyFixtureAfter := rfl
  have h6 : legato dirtyFixtureState "m" 0 none none none = .ok dirtyFixtureAfter := rfl
  have h7 : trimNotes dirtyFixtureState "m" 0 none none none = .ok dirtyFixtureAfter := rfl
  exact ⟨⟨_, h1, transforms_mark_dirty.1 _ _ _ _ _ _ _ _ _ h1⟩,
    ⟨_, h2, transforms_mark_dirty.2.1 _ _ _ _ _ _ _ _ _ _ _ h2⟩,
    ⟨_, h3, transforms_mark_dirty.2.2.1 _ _ _ _ _ _ _ h3⟩,
    ⟨_, h4, transforms_mark_dirty.2.2.2.1 _ _ _ _ _ _ _ _ _ h4⟩,
    ⟨_, h5, transforms_mark_dirty.2.2.2.2.1 _ _ _ _ _ _ _ h5⟩,
    ⟨_, h6, transforms_mark_dirty.2.2.2.2.2.1 _ _ _ _ _ _ _ h6⟩,
    ⟨_, h7, transforms_mark_dirty.2.2.2.2.2.2 _ _ _ _ _ _ _ h7⟩⟩

/-! ## Claim C3: fixOverlaps trim pass -/

instance : IsTotal (Nat × Note) (fun a b : Nat × Note => a.2.ticks ≤ b.2.ticks) :=
  ⟨fun _ _ => Nat.le_total _ _⟩

instance : IsTrans (Nat × Note) (fun a b : Nat × Note => a.2.ticks ≤ b.2.ticks) :=
  ⟨fun _ _ _ => Nat.le_trans⟩

/-- trimPassIdx keeps the head's position and start tick, whatever it
does to the duration. -/
theorem trimPassIdx_head_ticks (y : Nat × Note) (rest : List (Nat × Note)) :
    ∃ q, (trimPassIdx (y :: rest)).head? = some q ∧ q.2.ticks = y.2.ticks := by
  cases rest with
  | nil => exact ⟨y, rfl, rfl⟩
  | cons z r =>
    refine ⟨_, rfl, ?_⟩
    dsimp only [trimPassIdx]
    split <;> rfl

/-- trimPassIdx on a tick-sorted list leaves no overlap between
adjacent notes whose start ticks strictly increase. -/
theorem trimPassIdx_chain (l : List (Nat × Note))
    (hs : l.Chain' (fun a b => a.2.ticks ≤ b.2.ticks)) :
    (trimPassIdx l).Chain' (fun a b =>
      a.2.ticks < b.2.ticks → a.2.ticks + a.2.durationTicks ≤ b.2.ticks) := by
  induction l with
  | nil => simp [trimPassIdx]
  | cons x xs ih =>
    cases xs with
    | nil => simp [trimPassIdx]
    | cons y rest =>
      rw [List.chain'_cons] at hs
      obtain ⟨hxy, htail⟩ := hs
      have hstep : trimPassIdx (x :: y :: rest) =
          (x.1, if y.2.ticks < x.2.ticks + x.2.durationTicks then
              { x.2 with durationTicks := max 1 (y.2.ticks - x.2.ticks) }
            else x.2) :: trimPassIdx (y :: rest) := rfl
      rw [hstep, List.chain'_cons']
      refine ⟨?_, ih htail⟩
      intro b hb
      obtain ⟨q, hq, hticks⟩ := trimPassIdx_head_ticks y rest
      rw [hq, Option.mem_some_iff] at hb
      subst hb
      intro hlt
      by_cases hov : y.2.ticks < x.2.ticks + x.2.durationTicks
      · simp only [if_pos hov] at hlt ⊢
        simp only [hticks] at hlt ⊢
        omega
      · simp only [if_neg hov] at hlt ⊢
        simp only [hticks] at hlt ⊢
        omega

/-- C3 (amended): after the single trim pass of
`fixOverlaps(mode=trim)`, within every `(pitch, resolved channel)`
group of matching notes, an adjacent pair in start-tick order whose
start ticks strictly increase no longer overlaps; a pair sharing its
start tick keeps the 1-tick minimum duration and may still overlap. -/
theorem fixOverlaps_trim_no_overlap (t : Track) (range : Option TickRange)
    (filter : Option EvFilter) (g : (Int × Nat) × List (Nat × Note))
    (_hg : g ∈ overlapGroups t range filter) :
    (trimPassIdx (sortGroup g.2)).Chain' (fun a b =>
      a.2.ticks < b.2.ticks → a.2.ticks + a.2.durationTicks ≤ b.2.ticks) := by
  apply trimPassIdx_chain
  exact (List.sorted_insertionSort _ g.2).chain'

/-- overlapFixtureTrack has two notes of the same pitch and channel
starting at the same tick. -/
def overlapFixtureTrack : Track :=
  ⟨none, none, none, [⟨60, 0, 10, 1, none⟩, ⟨60, 0, 5, 1, none⟩], [], []⟩

/-- overlapFixtureState is a repository state holding
`overlapFixtureTrack`. -/
def overlapFixtureState : RepoState :=
  ⟨[("m", ⟨"m", "default", none, ⟨⟨480, [], [⟨0, 4, 4⟩]⟩, [overlapFixtureTrack]⟩,
     false, none⟩)], []⟩

/-- Counterexample for C3 as stated: two matching notes with equal
start ticks (pitch 60, channel 0, durations 10 and 5). After one
`fixOverlaps(mode=trim)` the group's adjacent pair is `(start 0, dur 1)`
followed by `(start 0, dur 5)`: the earlier note's start plus duration,
1, still exceeds the next note's start, 0. -/
theorem fixOverlaps_trim_counterexample :
    overlapGroups overlapFixtureTrack none none =
      [((60, 0), [(0, ⟨60, 0, 10, 1, none⟩), (1, ⟨60, 0, 5, 1, none⟩)])] ∧
    trimPassIdx (sortGroup [(0, ⟨60, 0, 10, 1, none⟩), (1, ⟨60, 0, 5, 1, none⟩)]) =
      [(0, ⟨60, 0, 1, 1, none⟩), (1, ⟨60, 0, 5, 1, none⟩)] ∧
    (fixOverlaps overlapFixtureState "m" 0 none none "trim" =
      .ok ⟨[("m", ⟨"m", "default", none,
        ⟨⟨480, [], [⟨0, 4, 4⟩]⟩,
         [⟨none, none, none, [⟨60, 0, 1, 1, none⟩, ⟨60, 0, 5, 1, none⟩], [], []⟩]⟩,
        true, none⟩)], []⟩) ∧
    ¬ ((0 : Nat) + 1 ≤ 0) :=
  ⟨rfl, rfl, rfl, by decide⟩

/-- Witness for C3 (amended) at the fixture group. -/
theorem fixOverlaps_trim_no_overlap_witness :
    (trimPassIdx (sortGroup [(0, (⟨60, 0, 10, 1, none⟩ : Note)), (1, ⟨60, 0, 5, 1, none⟩)])).Chain'
      (fun a b => a.2.ticks < b.2.ticks → a.2.ticks + a.2.durationTicks ≤ b.2.ticks) :=
  fixOverlaps_trim_no_overlap overlapFixtureTrack none none
    ((60, 0), [(0, ⟨60, 0, 10, 1, none⟩), (1, ⟨60, 0, 5, 1, none⟩)])
    (by decide)

/-! ## Claim C2: BBT round-trip -/

/-- tbInner on the unbounded (last) segment: starting at `current ≤ ticks`
with a positive bar length, the loop lands in bar
`bar + (ticks - current) / tpBar` and splits the remainder into beat
and tick. -/
theorem tbInner_none_eval (tpb tpBar ticks : Nat) (h1 : 1 ≤ tpBar) :
    ∀ fuel current bar, current ≤ ticks → (ticks - current) / tpBar + 1 ≤ fuel →
      tbInner tpb tpBar ticks none fuel current bar =
        some (Sum.inl ⟨bar + (ticks - current) / tpBar,
          ((ticks - current) % tpBar) / tpb + 1,
          ((ticks - current) % tpBar) % tpb⟩) := by
  intro fuel
  induction fuel with
  | zero =>
    intro current bar hc hf
    exact absurd hf (Nat.not_succ_le_zero _)
  | succ fuel ih =>
    intro current bar hc hf
    by_cases hlt : ticks < current + tpBar
    · have hdiv : (ticks - current) / tpBar = 0 := Nat.div_eq_of_lt (by omega)
      have hmod : (ticks - current) % tpBar = ticks - current := Nat.mod_eq_of_lt (by omega)
      simp only [tbInner, fitsNext, if_pos hlt, hdiv, hmod, Nat.add_zero, if_true]
    · have hle : current + tpBar ≤ ticks := by omega
      have e1 : ticks - (current + tpBar) = ticks - current - tpBar := by omega
      have hdiv : (ticks - current) / tpBar = (ticks - current - tpBar) / tpBar + 1 :=
        Nat.div_eq_sub_div (by omega) (by omega)
      have hmod : (ticks - current) % tpBar = (ticks - current - tpBar) % tpBar :=
        Nat.mod_eq_sub_mod (by omega)
      have hfuel : (ticks - (current + tpBar)) / tpBar + 1 ≤ fuel := by
        rw [e1]
        have h2 := hf
        rw [hdiv] at h2
        exact Nat.le_of_succ_le_succ h2
      have hrec := ih (current + tpBar) (bar + 1) (by omega) hfuel
      rw [e1] at hrec
      simp only [tbInner, fitsNext, if_neg hlt, if_true, hrec]
      have harith : bar + 1 + (ticks - current - tpBar) / tpBar =
          bar + ((ticks - current - tpBar) / tpBar + 1) := by omega
      rw [hdiv, hmod, harith]

/-- btInner on the unbounded (last) segment: starting at
`bar ≤ tbar`, the loop reaches the requested bar after
`tbar - bar` whole bars. -/
theorem btInner_none_eval (tpb tpBar tbar tbeat ttick : Nat) :
    ∀ fuel current bar, bar ≤ tbar → tbar - bar < fuel →
      btInner tpb tpBar none tbar tbeat ttick fuel current bar =
        some (Sum.inl (current + (tbar - bar) * tpBar + (tbeat - 1) * tpb + ttick)) := by
  intro fuel
  induction fuel with
  | zero =>
    intro current bar hb hf
    exact absurd hf (Nat.not_lt_zero _)
  | succ fuel ih =>
    intro current bar hb hf
    by_cases hbt : bar = tbar
    · subst hbt
      simp only [btInner, fitsNext, if_pos rfl, Nat.sub_self, Nat.zero_mul, Nat.add_zero,
        if_true]
    · have hrec := ih (current + tpBar) (bar + 1) (by omega) (by omega)
      simp only [btInner, fitsNext, if_neg hbt, if_true, hrec]
      have harith : current + tpBar + (tbar - (bar + 1)) * tpBar + (tbeat - 1) * tpb + ttick =
          current + (tbar - bar) * tpBar + (tbeat - 1) * tpb + ttick := by
        have hx : tbar - bar = (tbar - (bar + 1)) + 1 := by omega
        rw [hx, Nat.succ_mul]
        ring
      rw [harith]

/-- C2 (amended): with a single-entry time-signature map at tick 0
whose bar length is positive, `bbtToTicks` inverts `ticksToBbt` at
every tick count. (With two or more entries the source's
`bbtToTicks` resolves beats with the segment in which the bar walk
stops, while `ticksToBbt` uses the segment containing the tick, and
the round trip fails — see the counterexample.) -/
theorem bbt_roundtrip_single_sig (m : MidiFile) (num denom t : Nat)
    (hsig : m.header.timeSignatures = [⟨0, num, denom⟩])
    (hnum : 1 ≤ num) (htpb : 1 ≤ tpbOf m.header.ppq denom) :
    (ticksToBbt m t).bind (bbtToTicks m) = some t := by
  have htpBar : 1 ≤ tpbOf m.header.ppq denom * num := Nat.mul_le_mul htpb hnum
  have hsort : (if m.header.timeSignatures ≠ [] then sortSigs m.header.timeSignatures
      else defaultTimeSignatures) = [⟨0, num, denom⟩] := by
    rw [hsig]
    simp [sortSigs, List.insertionSort]
  unfold ticksToBbt
  rw [hsort]
  unfold ticksToBbtGo
  simp only [List.head?, Option.map]
  rw [tbInner_none_eval _ _ _ htpBar (t + 1) 0 1 (Nat.zero_le t)
    (by
      have h := Nat.div_le_self t (tpbOf m.header.ppq denom * num)
      simpa using Nat.succ_le_succ h)]
  simp only [Option.bind]
  unfold bbtToTicks
  rw [hsort]
  unfold bbtToTicksGo
  simp only [List.head?, Option.map]
  have hbtFuel : ∀ n : Nat, n - 1 < btFuel n none := by
    intro n
    simp only [btFuel, Option.elim]
    omega
  rw [btInner_none_eval _ _ _ _ _ (btFuel (1 + (t - 0) / (tpbOf m.header.ppq denom * num)) none)
    0 1 (Nat.le_add_right 1 _) (hbtFuel _)]
  simp only [Nat.sub_zero, Nat.add_sub_cancel, Nat.zero_add, Nat.add_sub_cancel_left]
  have e2 : (t % (tpbOf m.header.ppq denom * num) / tpbOf m.header.ppq denom) *
      tpbOf m.header.ppq denom + t % (tpbOf m.header.ppq denom * num) % tpbOf m.header.ppq denom =
      t % (tpbOf m.header.ppq denom * num) := by
    rw [Nat.mul_comm]
    exact Nat.div_add_mod _ _
  have e3 : t / (tpbOf m.header.ppq denom * num) * (tpbOf m.header.ppq denom * num) +
      t % (tpbOf m.header.ppq denom * num) = t := by
    rw [Nat.mul_comm]
    exact Nat.div_add_mod _ _
  rw [Nat.add_assoc, e2, e3]

/-- Witness for C2 (amended): PPQ 480, a single 4/4 signature at tick
0, tick 1000 round-trips. -/
theorem bbt_roundtrip_single_sig_witness :
    (ticksToBbt ⟨⟨480, [], [⟨0, 4, 4⟩]⟩, []⟩ 1000).bind
      (bbtToTicks ⟨⟨480, [], [⟨0, 4, 4⟩]⟩, []⟩) = some 1000 :=
  bbt_roundtrip_single_sig ⟨⟨480, [], [⟨0, 4, 4⟩]⟩, []⟩ 4 4 1000 rfl
    (by decide) (by decide)

/-- Counterexample for C2 as stated: PPQ 480, signatures 4/8 at tick 0
and 4/4 at tick 1000 (a fixed, tick-sorted map with its first entry at
tick 0). `ticksToBbt` maps tick 1500 to bar 2, beat 2, tick 60 using
the second signature's beat length, but `bbtToTicks` resolves bar 2 in
the first segment's leftover region with the first signature's beat
length 240 and returns 1260, not 1500. -/
theorem bbt_roundtrip_counterexample :
    (ticksToBbt ⟨⟨480, [], [⟨0, 4, 8⟩, ⟨1000, 4, 4⟩]⟩, []⟩ 1500).bind
        (bbtToTicks ⟨⟨480, [], [⟨0, 4, 8⟩, ⟨1000, 4, 4⟩]⟩, []⟩) = some 1260 ∧
      (1260 : Nat) ≠ 1500 :=
  ⟨rfl, by decide⟩

/-! ## Claim C1: resolveProjectPath -/

/-- Segments surviving normalization come from the input and are never
empty, `.` or `..`. -/
theorem foldl_normStep_spec :
    ∀ (l acc : List Seg) (s : Seg), s ∈ l.foldl normStep acc →
      s ∈ acc ∨ (s ∈ l ∧ s ≠ [] ∧ s ≠ dotSeg ∧ s ≠ dotdot) := by
  intro l
  induction l with
  | nil =>
    intro acc s hs
    exact Or.inl hs
  | cons x xs ih =>
    intro acc s hs
    rw [List.foldl_cons] at hs
    rcases ih (normStep acc x) s hs with h | h
    · by_cases h1 : x = [] ∨ x = dotSeg
      · rw [normStep, if_pos h1] at h
        exact Or.inl h
      · by_cases h2 : x = dotdot
        · rw [normStep, if_neg h1, if_pos h2] at h
          exact Or.inl (List.dropLast_subset acc h)
        · rw [normStep, if_neg h1, if_neg h2] at h
          rcases List.mem_append.mp h with h3 | h3
          · exact Or.inl h3
          · have hx : s = x := List.mem_singleton.mp h3
            subst hx
            push_neg at h1
            exact Or.inr ⟨List.mem_cons_self _ _, h1.1, h1.2, h2⟩
    · exact Or.inr ⟨List.mem_cons_of_mem _ h.1, h.2⟩

/-- normalizeAbs_spec: every output segment is an input segment and is
a real name (never empty, `.` or `..`). -/
theorem normalizeAbs_spec (l : List Seg) (s : Seg) (hs : s ∈ normalizeAbs l) :
    s ∈ l ∧ s ≠ [] ∧ s ≠ dotSeg ∧ s ≠ dotdot := by
  rcases foldl_normStep_spec l [] s hs with h | h
  · cases h
  · exact h

/-- relativeSegs of a path against an extension of itself is the
extension. -/
theorem relativeSegs_append : ∀ f r : List Seg, relativeSegs f (f ++ r) = r := by
  intro f
  induction f with
  | nil => intro r; rfl
  | cons x xs ih =>
    intro r
    simp only [List.cons_append, relativeSegs, if_pos rfl]
    exact ih r

/-- relativeSegs of two paths where the first does not extend to the
second starts with a `..` segment. -/
theorem relativeSegs_not_inside :
    ∀ f t : List Seg, (¬ ∃ r, t = f ++ r) → ∃ rest, relativeSegs f t = dotdot :: rest := by
  intro f
  induction f with
  | nil =>
    intro t h
    exact absurd ⟨t, rfl⟩ h
  | cons x xs ih =>
    intro t h
    cases t with
    | nil =>
      refine ⟨List.replicate xs.length dotdot, ?_⟩
      simp only [relativeSegs, List.replicate_succ]
    | cons y ys =>
      by_cases hxy : x = y
      · subst hxy
        have hys : ¬ ∃ r, ys = xs ++ r := by
          rintro ⟨r, hr⟩
          exact h ⟨r, by rw [hr]; rfl⟩
        obtain ⟨rest, hrest⟩ := ih ys hys
        refine ⟨rest, ?_⟩
        simp only [relativeSegs, if_pos rfl]
        exact hrest
      · refine ⟨List.replicate xs.length dotdot ++ (y :: ys), ?_⟩
        simp only [relativeSegs, if_neg hxy, List.replicate_succ, List.cons_append]

/-- joinSegs of a single segment. -/
theorem joinSegs_single (h : Seg) : joinSegs [h] = h := by
  simp [joinSegs, List.intercalate]

/-- joinSegs of at least two segments. -/
theorem joinSegs_cons₂ (a b : Seg) (t : List Seg) :
    joinSegs (a :: b :: t) = a ++ '/' :: joinSegs (b :: t) := by
  simp [joinSegs, List.intercalate]

/-- The `..`-check on a joined relative path only looks at the first
segment, provided that segment is non-empty. -/
theorem startsDotdot_cons (h : Seg) (t : List Seg) (hh : h ≠ []) :
    startsDotdot (h :: t) = dotdot.isPrefixOf h := by
  cases t with
  | nil => rw [startsDotdot, joinSegs_single]
  | cons b t' =>
    rw [startsDotdot, joinSegs_cons₂]
    rcases h with _ | ⟨a, _ | ⟨c, h'⟩⟩
    · exact absurd rfl hh
    · simp [dotdot, List.isPrefixOf]
    · simp [dotdot, List.isPrefixOf]

/-- The absolute-path check on a joined relative path is false when the
first segment is non-empty and contains no separator. -/
theorem startsSlash_cons (h : Seg) (t : List Seg) (hh : h ≠ [])
    (hslash : ('/' : Char) ∉ h) :
    startsSlash (h :: t) = false := by
  have hhead : ∀ (x : Char) (r : List Char), x ∈ h →
      (['/'] : List Char).isPrefixOf (x :: r) = false := by
    intro x r hx
    have : x ≠ '/' := fun he => hslash (he ▸ hx)
    simp [List.isPrefixOf, this, Ne.symm this]
  cases t with
  | nil =>
    rw [startsSlash, joinSegs_single]
    rcases h with _ | ⟨a, h'⟩
    · exact absurd rfl hh
    · exact hhead a h' (List.mem_cons_self _ _)
  | cons b t' =>
    rw [startsSlash, joinSegs_cons₂]
    rcases h with _ | ⟨a, h'⟩
    · exact absurd rfl hh
    · exact hhead a _ (List.mem_cons_self _ _)

/-- C1 (amended): `resolveProjectPath` fails for an unregistered
projectId; fails for every path resolving outside the project root;
returns the resolved absolute path when it equals the root, or lies
below the root with the first segment under the root not beginning with
the two characters `..`; and (the correction) also rejects a path that
IS inside the root whenever that first segment itself starts with
`..` — e.g. a directory literally named `..x`. Path segments are
separator-free by construction (they come from splitting on `/`),
which the two segment hypotheses record. -/
theorem resolveProjectPath_spec (projects : List (String × List Seg))
    (projectId : String) (rp : RelPath)
    (hsegs : ∀ s ∈ rp.segs, ('/' : Char) ∉ s) :
    (lookupKey projects projectId = none →
      resolveProjectPath projects projectId rp =
        .error ("projectId not found: " ++ projectId)) ∧
    (∀ base, lookupKey projects projectId = some base →
      (∀ s ∈ base, ('/' : Char) ∉ s) →
      (resolveAbs (normalizeAbs base) rp = normalizeAbs base →
        resolveProjectPath projects projectId rp =
          .ok (resolveAbs (normalizeAbs base) rp)) ∧
      (∀ h rest, resolveAbs (normalizeAbs base) rp = normalizeAbs base ++ (h :: rest) →
        (dotdot.isPrefixOf h = false →
          resolveProjectPath projects projectId rp =
            .ok (resolveAbs (normalizeAbs base) rp)) ∧
        (dotdot.isPrefixOf h = true →
          resolveProjectPath projects projectId rp =
            .error "Path escapes project root")) ∧
      ((¬ ∃ r, resolveAbs (normalizeAbs base) rp = normalizeAbs base ++ r) →
        resolveProjectPath projects projectId rp =
          .error "Path escapes project root")) := by
  constructor
  · intro hnone
    unfold resolveProjectPath
    rw [hnone]
  · intro base hbase hbsegs
    have habs : ∀ s ∈ resolveAbs (normalizeAbs base) rp,
        s ≠ [] ∧ s ≠ dotSeg ∧ s ≠ dotdot ∧ ('/' : Char) ∉ s := by
      intro s hs
      unfold resolveAbs at hs
      cases hA : rp.isAbsolute with
      | true =>
        rw [hA, if_pos rfl] at hs
        obtain ⟨horig, hgood⟩ := normalizeAbs_spec _ _ hs
        exact ⟨hgood.1, hgood.2.1, hgood.2.2, hsegs s horig⟩
      | false =>
        rw [hA] at hs
        simp only [Bool.false_eq_true, if_false] at hs
        obtain ⟨horig, hgood⟩ := normalizeAbs_spec _ _ hs
        refine ⟨hgood.1, hgood.2.1, hgood.2.2, ?_⟩
        rcases List.mem_append.mp horig with hmem | hmem
        · obtain ⟨hb, _⟩ := normalizeAbs_spec _ _ hmem
          exact hbsegs s hb
        · exact hsegs s hmem
    refine ⟨?_, ?_, ?_⟩
    · intro heq
      have hrel : relativeSegs (normalizeAbs base) (normalizeAbs base) = [] := by
        have := relativeSegs_append (normalizeAbs base) []
        rwa [List.append_nil] at this
      simp only [resolveProjectPath, hbase, heq, hrel]
      simp
    · intro h rest hcons
      have hmemh : h ∈ resolveAbs (normalizeAbs base) rp := by
        rw [hcons]
        exact List.mem_append.mpr (Or.inr (List.mem_cons_self _ _))
      obtain ⟨hne, _, _, hnoslash⟩ := habs h hmemh
      have hrel : relativeSegs (normalizeAbs base) (resolveAbs (normalizeAbs base) rp) =
          h :: rest := by
        rw [hcons]
        exact relativeSegs_append _ _
      constructor
      · intro hdot
        simp only [resolveProjectPath, hbase, hrel, startsDotdot_cons h rest hne, hdot,
          startsSlash_cons h rest hne hnoslash]
        simp
      · intro hdot
        simp only [resolveProjectPath, hbase, hrel, startsDotdot_cons h rest hne, hdot]
        simp
    · intro hout
      obtain ⟨rest, hrest⟩ := relativeSegs_not_inside _ _ hout
      simp only [resolveProjectPath, hbase, hrest, startsDotdot_cons dotdot rest (by decide)]
      simp [List.isPrefixOf]

/-- Witness for C1 (amended): root `/r`, relative path `a/b` is
accepted with the resolved path `/r/a/b`; relative path `../z`
normalizes outside the root and is rejected; an unregistered project
id is rejected. -/
theorem resolveProjectPath_spec_witness :
    (resolveProjectPath [("p", [['r']])] "p" ⟨false, [['a'], ['b']]⟩ =
      .ok [['r'], ['a'], ['b']]) ∧
    (resolveProjectPath [("p", [['r']])] "p" ⟨false, [['.', '.'], ['z']]⟩ =
      .error "Path escapes project root") ∧
    (resolveProjectPath [("p", [['r']])] "q" ⟨false, [['a']]⟩ =
      .error ("projectId not found: " ++ "q")) := by
  refine ⟨?_, ?_, ?_⟩
  · exact (((resolveProjectPath_spec [("p", [['r']])] "p" ⟨false, [['a'], ['b']]⟩
      (by decide)).2 [['r']] rfl (by decide)).2.1 ['a'] [['b']] rfl).1 rfl
  · exact ((resolveProjectPath_spec [("p", [['r']])] "p" ⟨false, [['.', '.'], ['z']]⟩
      (by decide)).2 [['r']] rfl (by decide)).2.2
      (by
        rintro ⟨r, hr⟩
        have : normalizeAbs ([['r']] ++ [['.', '.'], ['z']]) = [['z']] := by decide
        rw [show resolveAbs (normalizeAbs [['r']]) ⟨false, [['.', '.'], ['z']]⟩ =
          [['z']] from rfl] at hr
        cases hr)
  · exact (resolveProjectPath_spec [("p", [['r']])] "q" ⟨false, [['a']]⟩
      (by decide)).1 rfl

/-- Counterexample for C1 as stated: with root `/r`, the relative path
`..x` (a single segment that merely BEGINS with two dots) resolves to
`/r/..x`, which lies inside the root — the resolved path literally
extends the root by one segment — yet `resolveProjectPath` rejects it,
because `path.relative` returns the string `..x` and the guard only
tests `startsWith("..")`. -/
theorem resolveProjectPath_counterexample :
    resolveProjectPath [("p", [['r']])] "p" ⟨false, [['.', '.', 'x']]⟩ =
      .error "Path escapes project root" ∧
    resolveAbs (normalizeAbs [['r']]) ⟨false, [['.', '.', 'x']]⟩ =
      normalizeAbs [['r']] ++ [['.', '.', 'x']] :=
  ⟨rfl, rfl⟩

/-! ## Claim C4: scale-constraint closure -/

/-- allScaleSets enumerates every allowed pitch-class set `buildScale`
can return: each of the four interval patterns shifted by each of the
twelve key roots. -/
def allScaleSets : List (List Int) :=
  ((List.range 12).map (fun ki =>
    (scaleTable.map (·.2)).map (fun intervals =>
      intervals.map (fun i => (i + (ki : Int)) % 12)))).flatten

/-- strategyNames lists the three strategies of the claim. -/
def strategyNames : List String := ["nearest", "up", "down"]

/-- scaleGapCheck decides that every reachable allowed set has a member
class at most 11 semitones above and at most 11 below every pitch class:
these are exactly the windows the two searches of constrainNote probe. -/
def scaleGapCheck : Bool :=
  allScaleSets.all fun A =>
    (List.range 12).all fun c =>
      ((List.range' 1 11).any fun i => A.contains (((c : Int) + (i : Int)).tmod 12)) &&
      ((List.range' 1 11).any fun i => A.contains (((c : Int) - (i : Int) + 1200).tmod 12))

theorem scaleGapCheck_true : scaleGapCheck = true := by decide

/-- boundaryPitches are the pitches within 11 semitones of an end of the
MIDI range, where the clamp can interact with the constrain step. -/
def boundaryPitches : List Nat := List.range 11 ++ List.range' 117 11

/-- constrainBoundaryCheck decides idempotence and the in-scale property
of the constrain-and-clamp step directly on the boundary pitches. -/
def constrainBoundaryCheck : Bool :=
  allScaleSets.all fun A =>
    strategyNames.all fun strat =>
      boundaryPitches.all fun p =>
        let r := constrainStep A strat (p : Int)
        constrainStep A strat r == r &&
          (!(decide (0 < r) && decide (r < 127)) || A.contains (r.tmod 12))

set_option maxRecDepth 4000 in
theorem constrainBoundaryCheck_true : constrainBoundaryCheck = true := by decide

/-- indexOfStr only returns indices inside the list. -/
theorem indexOfStr_lt_length :
    ∀ (l : List String) (s : String) (i : Nat), indexOfStr l s = some i → i < l.length := by
  intro l
  induction l with
  | nil =>
    intro s i h
    exact Option.noConfusion h
  | cons k ks ih =>
    intro s i h
    by_cases hk : k = s
    · rw [indexOfStr, if_pos hk] at h
      cases h
      simp
    · rw [indexOfStr, if_neg hk] at h
      cases hrec : indexOfStr ks s with
      | none =>
        rw [hrec] at h
        exact Option.noConfusion h
      | some j =>
        rw [hrec] at h
        simp only [Option.map] at h
        cases h
        have := ih s j hrec
        simpa using Nat.succ_lt_succ this

/-- lookupKey returns one of the stored values. -/
theorem lookupKey_mem {β : Type} :
    ∀ (m : List (String × β)) (k : String) (v : β),
      lookupKey m k = some v → v ∈ m.map (·.2) := by
  intro m
  induction m with
  | nil =>
    intro k v h
    exact Option.noConfusion h
  | cons p rest ih =>
    intro k v h
    unfold lookupKey at h
    by_cases hp : p.1 = k
    · rw [List.find?_cons_of_pos _ (by simpa using hp)] at h
      have h2 : some p.2 = some v := h
      cases h2
      exact List.mem_map.mpr ⟨p, List.mem_cons_self _ _, rfl⟩
    · rw [List.find?_cons_of_neg _ (by simpa using hp)] at h
      exact List.mem_cons_of_mem _ (ih k v h)

/-- buildScale only returns sets from `allScaleSets`. -/
theorem buildScale_mem (key scale : String) (A : List Int)
    (h : buildScale key scale = .ok A) : A ∈ allScaleSets := by
  unfold buildScale at h
  cases hk : indexOfStr chromaticKeys (toUpperStr key) with
  | none =>
    rw [hk] at h
    exact Except.noConfusion h
  | some ki =>
    rw [hk] at h
    cases hs : lookupKey scaleTable scale with
    | none =>
      rw [hs] at h
      exact Except.noConfusion h
    | some intervals =>
      rw [hs] at h
      cases h
      have hki : ki < 12 := by
        have := indexOfStr_lt_length chromaticKeys (toUpperStr key) ki hk
        simpa [chromaticKeys] using this
      have hint : intervals ∈ scaleTable.map (·.2) := lookupKey_mem _ _ _ hs
      unfold allScaleSets
      rw [List.mem_flatten]
      exact ⟨_, List.mem_map.mpr ⟨ki, List.mem_range.mpr hki, rfl⟩,
        List.mem_map.mpr ⟨intervals, hint, rfl⟩⟩

/-- The up-search predicate of constrainNote is satisfiable in the probed
window, for every reachable set and every non-negative pitch. -/
theorem gap_up (A : List Int) (hA : A ∈ allScaleSets) (p : Int) (hp : 0 ≤ p) :
    ∃ n ∈ List.range' 1 11, A.contains ((p + ((n : Nat) : Int)).tmod 12) = true := by
  have hall := scaleGapCheck_true
  unfold scaleGapCheck at hall
  rw [List.all_eq_true] at hall
  have h1 := hall A hA
  rw [List.all_eq_true] at h1
  have hc0 : 0 ≤ p.tmod 12 := Int.tmod_nonneg 12 hp
  have hc12 : p.tmod 12 < 12 := Int.tmod_lt_of_pos p (by norm_num)
  have hmem : (p.tmod 12).toNat ∈ List.range 12 := by
    rw [List.mem_range]
    omega
  have h2 := h1 _ hmem
  rw [Bool.and_eq_true] at h2
  obtain ⟨hupb, _⟩ := h2
  rw [List.any_eq_true] at hupb
  obtain ⟨i, him, hpred⟩ := hupb
  refine ⟨i, him, ?_⟩
  rw [Int.toNat_of_nonneg hc0] at hpred
  have hi1 : 1 ≤ i := (List.mem_range'_1.mp him).1
  have hi11 : i < 12 := by
    have := (List.mem_range'_1.mp him).2
    omega
  have hiC : (1 : Int) ≤ (i : Int) ∧ (i : Int) < 12 := by
    constructor <;> [exact_mod_cast hi1; exact_mod_cast hi11]
  have htm : p.tmod 12 = p % 12 := Int.tmod_eq_emod hp (by norm_num)
  have ha : (0 : Int) ≤ p.tmod 12 + (i : Int) := by omega
  have hb : (0 : Int) ≤ p + (i : Int) := by omega
  have hmodeq : (p.tmod 12 + (i : Int)) % 12 = (p + (i : Int)) % 12 := by
    rw [htm]
    omega
  rwa [Int.tmod_eq_emod ha (by norm_num), hmodeq, ← Int.tmod_eq_emod hb (by norm_num)] at hpred

/-- The down-search predicate of constrainNote is satisfiable in the probed
window, for every reachable set and every non-negative pitch. -/
theorem gap_down (A : List Int) (hA : A ∈ allScaleSets) (p : Int) (hp : 0 ≤ p) :
    ∃ n ∈ List.range' 1 11, A.contains ((p - ((n : Nat) : Int) + 1200).tmod 12) = true := by
  have hall := scaleGapCheck_true
  unfold scaleGapCheck at hall
  rw [List.all_eq_true] at hall
  have h1 := hall A hA
  rw [List.all_eq_true] at h1
  have hc0 : 0 ≤ p.tmod 12 := Int.tmod_nonneg 12 hp
  have hc12 : p.tmod 12 < 12 := Int.tmod_lt_of_pos p (by norm_num)
  have hmem : (p.tmod 12).toNat ∈ List.range 12 := by
    rw [List.mem_range]
    omega
  have h2 := h1 _ hmem
  rw [Bool.and_eq_true] at h2
  obtain ⟨_, hdownb⟩ := h2
  rw [List.any_eq_true] at hdownb
  obtain ⟨i, him, hpred⟩ := hdownb
  refine ⟨i, him, ?_⟩
  rw [Int.toNat_of_nonneg hc0] at hpred
  have hi1 : 1 ≤ i := (List.mem_range'_1.mp him).1
  have hi11 : i < 12 := by
    have := (List.mem_range'_1.mp him).2
    omega
  have hiC : (1 : Int) ≤ (i : Int) ∧ (i : Int) < 12 := by
    constructor <;> [exact_mod_cast hi1; exact_mod_cast hi11]
  have htm : p.tmod 12 = p % 12 := Int.tmod_eq_emod hp (by norm_num)
  have ha : (0 : Int) ≤ p.tmod 12 - (i : Int) + 1200 := by omega
  have hb : (0 : Int) ≤ p - (i : Int) + 1200 := by omega
  have hmodeq : (p.tmod 12 - (i : Int) + 1200) % 12 = (p - (i : Int) + 1200) % 12 := by
    rw [htm]
    omega
  rwa [Int.tmod_eq_emod ha (by norm_num), hmodeq, ← Int.tmod_eq_emod hb (by norm_num)] at hpred

/-- Bounds direction of the coerced search-index list: its members are
the integers 1 to 11. -/
theorem searchWindow_bounds (x : Int)
    (h : x ∈ ((List.range' 1 11).flatMap fun a => pure ((a : Nat) : Int))) :
    1 ≤ x ∧ x ≤ 11 := by
  simp only [List.mem_flatMap, List.mem_range'_1, pure, List.singleton, List.mem_cons,
    List.not_mem_nil, or_false] at h
  obtain ⟨n, ⟨h1, h2⟩, rfl⟩ := h
  omega

/-- Membership direction of the coerced search-index list. -/
theorem searchWindow_mem (n : Nat) (h1 : 1 ≤ n) (h2 : n ≤ 11) :
    ((n : Nat) : Int) ∈ ((List.range' 1 11).flatMap fun a => pure ((a : Nat) : Int)) := by
  simp only [List.mem_flatMap, List.mem_range'_1, pure, List.singleton, List.mem_cons,
    List.not_mem_nil, or_false]
  exact ⟨n, ⟨h1, by omega⟩, rfl⟩

/-- Away from the range ends, constrainNote moves at most 11 semitones and
lands on an allowed pitch class. -/
theorem constrainNote_interior (A : List Int) (strat : String) (p : Int)
    (hA : A ∈ allScaleSets) (hp : (11 : Int) ≤ p) :
    p - 11 ≤ constrainNote p A strat ∧ constrainNote p A strat ≤ p + 11 ∧
      A.contains ((constrainNote p A strat).tmod 12) = true := by
  have hp0 : (0 : Int) ≤ p := by omega
  by_cases hc : A.contains (p.tmod 12) = true
  · rw [constrainNote, if_pos hc]
    exact ⟨by omega, by omega, hc⟩
  · obtain ⟨iu, hium, hiup⟩ := gap_up A hA p hp0
    obtain ⟨idn, hidm, hidp⟩ := gap_down A hA p hp0
    have hiu1 : 1 ≤ iu := (List.mem_range'_1.mp hium).1
    have hiu11 : iu < 12 := by
      have := (List.mem_range'_1.mp hium).2
      omega
    have hid1 : 1 ≤ idn := (List.mem_range'_1.mp hidm).1
    have hid11 : idn < 12 := by
      have := (List.mem_range'_1.mp hidm).2
      omega
    rw [constrainNote, if_neg hc]
    split
    next i₀ hfu =>
      have hiub := searchWindow_bounds i₀ (List.mem_of_find?_eq_some hfu)
      have hiuc : A.contains ((p + i₀).tmod 12) = true := by
        simpa using List.find?_some hfu
      split
      next j₀ hfd =>
        have hjdb := searchWindow_bounds j₀ (List.mem_of_find?_eq_some hfd)
        have hjdc : A.contains ((p - j₀).tmod 12) = true := by
          have hju : A.contains ((p - j₀ + 1200).tmod 12) = true := by
            simpa using List.find?_some hfd
          have ha : (0 : Int) ≤ p - j₀ + 1200 := by omega
          have hb : (0 : Int) ≤ p - j₀ := by omega
          rwa [Int.tmod_eq_emod ha (by norm_num),
            show (p - j₀ + 1200) % 12 = (p - j₀) % 12 by omega,
            ← Int.tmod_eq_emod hb (by norm_num)] at hju
        simp only []
        split_ifs with hs1 hs2 hs3
        · exact ⟨(by omega : p - 11 ≤ p + i₀), (by omega : p + i₀ ≤ p + 11), hiuc⟩
        · exact ⟨(by omega : p - 11 ≤ p - j₀), (by omega : p - j₀ ≤ p + 11), hjdc⟩
        · exact ⟨(by omega : p - 11 ≤ p + i₀), (by omega : p + i₀ ≤ p + 11), hiuc⟩
        · exact ⟨(by omega : p - 11 ≤ p - j₀), (by omega : p - j₀ ≤ p + 11), hjdc⟩
      next hfd =>
        rw [List.find?_eq_none] at hfd
        exact absurd hidp (by simpa using hfd _ (searchWindow_mem idn hid1 (by omega)))
    next hfu =>
      rw [List.find?_eq_none] at hfu
      exact absurd hiup (by simpa using hfu _ (searchWindow_mem iu hiu1 (by omega)))

/-- A pitch inside the range whose class is allowed is a fixed point of
the constrain-and-clamp step. -/
theorem constrainStep_of_contains (A : List Int) (strat : String) (r : Int)
    (h0 : 0 ≤ r) (h1 : r ≤ 127) (hmem : A.contains (r.tmod 12) = true) :
    constrainStep A strat r = r := by
  rw [constrainStep, constrainNote, if_pos hmem, clampMidi]
  omega

/-- Away from the range ends the clamp is inert and the step lands in
scale. -/
theorem constrainStep_interior (A : List Int) (strat : String) (p : Int)
    (hA : A ∈ allScaleSets) (h11 : (11 : Int) ≤ p) (h116 : p ≤ 116) :
    A.contains ((constrainStep A strat p).tmod 12) = true := by
  obtain ⟨hlo, hhi, hmem⟩ := constrainNote_interior A strat p hA h11
  have heq : constrainStep A strat p = constrainNote p A strat := by
    rw [constrainStep, clampMidi]
    omega
  rwa [heq]

/-- The pointwise closure facts: the interior pitches by the gap argument,
the boundary pitches by the decided check. -/
theorem constrainStep_closure (A : List Int) (hA : A ∈ allScaleSets)
    (strat : String) (hstrat : strat ∈ strategyNames)
    (p : Int) (hp0 : 0 ≤ p) (hp1 : p ≤ 127) :
    constrainStep A strat (constrainStep A strat p) = constrainStep A strat p ∧
    (0 < constrainStep A strat p → constrainStep A strat p < 127 →
      A.contains ((constrainStep A strat p).tmod 12) = true) := by
  by_cases hint : (11 : Int) ≤ p ∧ p ≤ 116
  · have hmem := constrainStep_interior A strat p hA hint.1 hint.2
    obtain ⟨hb0, hb1⟩ : 0 ≤ constrainStep A strat p ∧ constrainStep A strat p ≤ 127 := by
      rw [constrainStep, clampMidi]
      omega
    exact ⟨constrainStep_of_contains A strat _ hb0 hb1 hmem, fun _ _ => hmem⟩
  · have hcheck := constrainBoundaryCheck_true
    unfold constrainBoundaryCheck at hcheck
    rw [List.all_eq_true] at hcheck
    have h1 := hcheck A hA
    rw [List.all_eq_true] at h1
    have h2 := h1 strat hstrat
    rw [List.all_eq_true] at h2
    have hmem : p.toNat ∈ boundaryPitches := by
      rw [boundaryPitches, List.mem_append, List.mem_range, List.mem_range'_1]
      omega
    have h3 := h2 p.toNat hmem
    rw [Int.toNat_of_nonneg hp0] at h3
    simp only [Bool.and_eq_true, beq_iff_eq, Bool.or_eq_true, Bool.not_eq_true',
      Bool.and_eq_false_iff, decide_eq_true_eq, decide_eq_false_iff_not] at h3
    obtain ⟨hfix, hsc⟩ := h3
    refine ⟨hfix, ?_⟩
    intro hr0 hr1
    rcases hsc with hneg | hcont
    · exfalso
      rcases hneg with hn | hn <;> exact hn (by omega)
    · exact hcont

/-- notePred ignores the note collection of the track. -/
theorem notePred_notes_irrel (t : Track) (ns : List Note) (range : Option TickRange)
    (filter : Option EvFilter) (n : Note) :
    notePred { t with notes := ns } range filter n = notePred t range filter n := rfl

/-- A second constrain pass over an already-constrained track changes
no note. -/
theorem constrainTrackNotes_idem (track : Track) (range : Option TickRange)
    (filter : Option EvFilter) (A : List Int) (hA : A ∈ allScaleSets)
    (strat : String) (hstrat : strat ∈ strategyNames)
    (hpitch : ∀ n ∈ track.notes, 0 ≤ n.midi ∧ n.midi ≤ 127) :
    constrainTrackNotes { track with notes := constrainTrackNotes track range filter A strat }
        range filter A strat =
      constrainTrackNotes track range filter A strat := by
  unfold constrainTrackNotes
  simp only [notePred_notes_irrel]
  rw [List.map_map]
  apply List.map_congr_left
  intro n hn
  obtain ⟨h0, h1⟩ := hpitch n hn
  simp only [Function.comp]
  by_cases hp : notePred track range filter n
  · rw [if_pos hp]
    by_cases hp2 : notePred track range filter
        { n with midi := constrainStep A strat n.midi }
    · rw [if_pos hp2]
      have hfix := (constrainStep_closure A hA strat hstrat n.midi h0 h1).1
      simp [hfix]
    · rw [if_neg hp2]
  · rw [if_neg hp, if_neg hp]

/-- constrainStep stays within the MIDI range. -/
theorem constrainStep_bounds (A : List Int) (strat : String) (p : Int) :
    0 ≤ constrainStep A strat p ∧ constrainStep A strat p ≤ 127 := by
  unfold constrainStep clampMidi
  omega

/-- A key written by `storeSet` is present afterwards. -/
theorem any_storeSet {β : Type} (m : List (String × β)) (k : String) (v : β) :
    (storeSet m k v).any (fun p => p.1 = k) = true := by
  unfold storeSet
  by_cases h : m.any (fun p => p.1 = k) = true
  · rw [if_pos h]
    rw [List.any_eq_true] at h ⊢
    obtain ⟨p, hp, hpk⟩ := h
    refine ⟨(k, v), List.mem_map.mpr ⟨p, hp, ?_⟩, by simp⟩
    rw [if_pos (by simpa using hpk)]
  · rw [if_neg h]
    rw [List.any_eq_true]
    exact ⟨(k, v), List.mem_append.mpr (Or.inr (List.mem_singleton.mpr rfl)), by simp⟩

/-- storeSet_eq_of_any: writing an existing key replaces in place. -/
theorem storeSet_eq_of_any {β : Type} (m : List (String × β)) (k : String) (v : β)
    (h : m.any (fun p => p.1 = k) = true) :
    storeSet m k v = m.map (fun p => if p.1 = k then (k, v) else p) := by
  unfold storeSet
  rw [if_pos h]

/-- Writing the same key-value pair twice is the same as once. -/
theorem storeSet_storeSet {β : Type} (m : List (String × β)) (k : String) (v : β) :
    storeSet (storeSet m k v) k v = storeSet m k v := by
  rw [storeSet_eq_of_any _ _ _ (any_storeSet m k v)]
  unfold storeSet
  by_cases h : m.any (fun p => p.1 = k) = true
  · rw [if_pos h, List.map_map]
    apply List.map_congr_left
    intro p _
    by_cases hpk : p.1 = k
    · simp [hpk]
    · simp [hpk]
  · rw [if_neg h, List.map_append]
    have hall : ∀ p ∈ m, ¬ p.1 = k := by
      intro p hp hpk
      exact h (List.any_eq_true.mpr ⟨p, hp, by simpa using hpk⟩)
    have hm : m.map (fun p => if p.1 = k then (k, v) else p) = m.map id :=
      List.map_congr_left (fun p hp => by simp [hall p hp])
    rw [hm, List.map_id]
    simp

/-- C4 (amended): for every valid key and scale and every strategy,
applying `constrainToScale` a second time with the same arguments to
its own output changes no note; and every matched note of the output
has its pitch class in the allowed set unless it is a clamped boundary
pitch (0 or 127). The claim's stronger reading — every produced pitch
already in scale — fails exactly at those clamped boundary pitches. -/
theorem constrainToScale_idempotent
    (st st' : RepoState) (midiId : String) (trackId : Nat)
    (range : Option TickRange) (filter : Option EvFilter)
    (key scale strategy : String) (entry : MidiEntry) (track : Track)
    (hstrat : strategy ∈ strategyNames)
    (hlook : lookupKey st.midiStore midiId = some entry)
    (htrack : entry.midi.tracks[trackId]? = some track)
    (hpitch : ∀ n ∈ track.notes, 0 ≤ n.midi ∧ n.midi ≤ 127)
    (hrun : constrainToScale st midiId trackId range filter key scale strategy = .ok st') :
    constrainToScale st' midiId trackId range filter key scale strategy = .ok st' ∧
    (∀ A, buildScale key scale = .ok A →
      ∀ entry', lookupKey st'.midiStore midiId = some entry' →
      ∀ track', entry'.midi.tracks[trackId]? = some track' →
      ∀ n ∈ track'.notes, notePred track' range filter n = true →
        A.contains (n.midi.tmod 12) = true ∨ n.midi = 0 ∨ n.midi = 127) := by
  simp only [constrainToScale, applyTrackOp, getEntry, getTrack, hlook, htrack] at hrun
  cases hbs : buildScale key scale with
  | error e =>
    rw [hbs] at hrun
    exact Except.noConfusion hrun
  | ok A =>
    rw [hbs] at hrun
    have hA := buildScale_mem key scale A hbs
    have hlen : trackId < entry.midi.tracks.length := (List.getElem?_eq_some_iff.mp htrack).1
    cases hrun
    have hidem := constrainTrackNotes_idem track range filter A hA strategy hstrat hpitch
    have hlook1 : lookupKey (storeSet st.midiStore midiId (markDirty { entry with midi := setTrack entry.midi trackId { track with notes := constrainTrackNotes track range filter A strategy } })) midiId = some (markDirty { entry with midi := setTrack entry.midi trackId { track with notes := constrainTrackNotes track range filter A strategy } }) :=
      lookupKey_storeSet _ _ _
    have htrack1 : (markDirty { entry with midi := setTrack entry.midi trackId { track with notes := constrainTrackNotes track range filter A strategy } }).midi.tracks[trackId]? = some { track with notes := constrainTrackNotes track range filter A strategy } := by
      simp only [markDirty, setTrack]
      rw [List.getElem?_set_self (by simpa using hlen)]
    constructor
    · simp only [constrainToScale, applyTrackOp, getEntry, getTrack, hlook1, htrack1, hbs]
      rw [hidem]
      simp only [markDirty, setTrack, List.set_set]
      rw [storeSet_storeSet]
    · intro A2 hbs2 entry2 hlook2 track2 htrack2 n hn hpred
      cases hbs2
      have hEeq := hlook1.symm.trans hlook2
      cases hEeq
      have hTeq := htrack1.symm.trans htrack2
      cases hTeq
      have hn2 : n ∈ track.notes.map (fun note =>
          if notePred track range filter note then
            { note with midi := constrainStep A strategy note.midi }
          else note) := hn
      obtain ⟨m, hm, hgm⟩ := List.mem_map.mp hn2
      obtain ⟨hm0, hm1⟩ := hpitch m hm
      by_cases hp : notePred track range filter m = true
      · rw [if_pos hp] at hgm
        subst hgm
        by_cases hz : constrainStep A strategy m.midi = 0
        · exact Or.inr (Or.inl hz)
        · by_cases h127 : constrainStep A strategy m.midi = 127
          · exact Or.inr (Or.inr h127)
          · left
            have hb := constrainStep_bounds A strategy m.midi
            exact (constrainStep_closure A hA strategy hstrat m.midi hm0 hm1).2
              (by omega) (by omega)
      · rw [if_neg hp] at hgm
        subst hgm
        rw [notePred_notes_irrel] at hpred
        exact absurd hpred hp


/-- scaleFixtureState holds one note of pitch 0 in a clean session. -/
def scaleFixtureState : RepoState :=
  ⟨[("m", ⟨"m", "default", none, ⟨⟨480, [], [⟨0, 4, 4⟩]⟩,
    [⟨none, none, none, [⟨0, 0, 10, 1, none⟩], [], []⟩]⟩, false, none⟩)], []⟩

/-- scaleFixtureAfter is `scaleFixtureState` after one constrain pass
(the pitch-0 note is untouched, only the dirty flag flips). -/
def scaleFixtureAfter : RepoState :=
  ⟨[("m", ⟨"m", "default", none, ⟨⟨480, [], [⟨0, 4, 4⟩]⟩,
    [⟨none, none, none, [⟨0, 0, 10, 1, none⟩], [], []⟩]⟩, true, none⟩)], []⟩

/-- Counterexample for C4 as stated: key D, scale major, strategy
`down`, pitch 0. The allowed classes are {2,4,6,7,9,11,1}; the
downward search returns -1 (class 11, in scale), the clamp lifts it
back to 0, and pitch class 0 is NOT in the D-major set — so the first
application produces a pitch whose class is outside the allowed set
(the note is nevertheless unchanged, so only the in-scale half of the
claim fails). -/
theorem constrainToScale_counterexample :
    buildScale "D" "major" = .ok [2, 4, 6, 7, 9, 11, 1] ∧
    constrainStep [2, 4, 6, 7, 9, 11, 1] "down" 0 = 0 ∧
    ([2, 4, 6, 7, 9, 11, 1] : List Int).contains ((0 : Int).tmod 12) = false ∧
    constrainToScale scaleFixtureState "m" 0 none none "D" "major" "down" =
      .ok scaleFixtureAfter :=
  ⟨rfl, rfl, rfl, rfl⟩

/-- Witness for C4 (amended) at the fixture: the second application is
a no-op on the produced state, and the produced pitch-0 note falls in
the boundary alternative of the in-scale disjunction. -/
theorem constrainToScale_idempotent_witness :
    (constrainToScale scaleFixtureAfter "m" 0 none none "D" "major" "down" =
      .ok scaleFixtureAfter) ∧
    (([2, 4, 6, 7, 9, 11, 1] : List Int).contains
        (((⟨0, 0, 10, 1, none⟩ : Note)).midi.tmod 12) = true ∨
      (⟨0, 0, 10, 1, none⟩ : Note).midi = 0 ∨
      (⟨0, 0, 10, 1, none⟩ : Note).midi = 127) := by
  have h := constrainToScale_idempotent scaleFixtureState scaleFixtureAfter "m" 0
    none none "D" "major" "down"
    ⟨"m", "default", none, ⟨⟨480, [], [⟨0, 4, 4⟩]⟩,
      [⟨none, none, none, [⟨0, 0, 10, 1, none⟩], [], []⟩]⟩, false, none⟩
    ⟨none, none, none, [⟨0, 0, 10, 1, none⟩], [], []⟩
    (by decide) rfl rfl (by decide) rfl
  refine ⟨h.1, h.2 [2, 4, 6, 7, 9, 11, 1] rfl
    ⟨"m", "default", none, ⟨⟨480, [], [⟨0, 4, 4⟩]⟩,
      [⟨none, none, none, [⟨0, 0, 10, 1, none⟩], [], []⟩]⟩, true, none⟩ rfl
    ⟨none, none, none, [⟨0, 0, 10, 1, none⟩], [], []⟩ rfl
    ⟨0, 0, 10, 1, none⟩ (by decide) (by decide)⟩

end MidiMcp
